import Mathlib

/-!
Verification of the SciTECO execution core against its specification.

The development shallowly embeds the parts of the source relevant to the
claims under scrutiny:

* an expression stack with argument barriers (the Expressions class of the
  source is not part of the provided sources, so it is modelled from the
  specification, sections 3 and 4.3);
* the character-driven parser loop of parser.cpp (State::input,
  State::get_next_state) as a generic table machine;
* a small-step interpreter for the command subset that drives the loop
  stack and macro frames (StateStart::custom cases for digits, arithmetic
  operators, braces, comma, colon, at, loop start/end, conditional break,
  escape/return and macro invocation);
* the buffer-ring save path of qbuffers.cpp (Ring::save, make_savepoint);
* the Q-register string accessors and the register save/restore stack of
  qbuffers.cpp;
* the conditional-command dispatcher (StateCondCommand::custom) and the
  movement commands (J C R L B W) of parser.cpp;
* the EB command states of qbuffers.cpp.

Machine integers of the source are 64-bit two's complement with
wraparound; arithmetic results are reduced by wrap64 below.  External
collaborators (the Scintilla widget, the filesystem) are modelled as
explicit state, matching the message contracts of section 6 of the
specification.
-/

namespace SciTeco

/-! ## Expression stack

Modelled from the spec: the Expressions class (expressions.cpp/h) is not
among the provided sources; only its call sites in parser.cpp and
qbuffers.cpp are.  The model follows the data model of spec section 3
(entries are integers or operator/marker entries, the barriers are NEW,
LOOP and BRACE) and the operations of spec section 4.3.  A binary
operator whose operand is missing above the topmost barrier takes 0 for
the missing operand, following the spec's conventions that omitted
arguments imply a default (digits: "0 is implied") and that evaluation
collapses all operator entries down to a contiguous run of integers. -/

/-- wrap64 reduces an unbounded integer to the signed 64-bit two's
complement value the source's tecoInt arithmetic would produce
(spec section 4.1: "signed, two's complement, 64-bit with wraparound"). -/
def wrap64 (n : Int) : Int :=
  (n + 2 ^ 63) % 2 ^ 64 - 2 ^ 63

/-- Operator and marker entries of the expression stack
(spec section 3: ADD, SUB, MUL, DIV, MOD, POW, AND, OR, XOR, NEW, LOOP,
BRACE). -/
inductive Op where
  | add | sub | mul | div | mod | pow | land | lor | lxor | new | lp | brace
  deriving DecidableEq, Repr

/-- Barrier markers bound the run of argument integers
(spec section 3: NEW, LOOP and BRACE bound the contiguous run). -/
def Op.isBarrier : Op → Bool
  | .new | .lp | .brace => true
  | _ => false

/-- Stack entries: an integer or an operator/marker (spec section 3). -/
inductive Entry where
  | num (n : Int)
  | op (o : Op)
  deriving DecidableEq, Repr

/-- Barrier test lifted to entries. -/
def Entry.isBarrier : Entry → Bool
  | .num _ => false
  | .op o => o.isBarrier

/-- Semantics of one binary operator application on 64-bit integers.
Division and modulus truncate toward zero as in C; the source raises an
error on division by zero, a case no claim exercises, so the model
returns 0 there (Int.div and Int.mod by 0 are 0). -/
def applyOp : Op → Int → Int → Int
  | .add, a, b => wrap64 (a + b)
  | .sub, a, b => wrap64 (a - b)
  | .mul, a, b => wrap64 (a * b)
  | .div, a, b => wrap64 (Int.tdiv a b)
  | .mod, a, b => wrap64 (Int.tmod a b)
  | .pow, a, b => wrap64 (if b < 0 then 0 else a ^ b.toNat)
  | .land, a, b => wrap64 (Int.land a b)
  | .lor, a, b => wrap64 (Int.lor a b)
  | .lxor, a, b => wrap64 (Int.xor a b)
  | _, a, _ => a

/-- Count of contiguous integers above the topmost barrier or operator;
together with the barrier-spanning takeWhile below this realizes args()
of spec section 3 ("the count of contiguous integers above the top-most
barrier"). -/
def argsOf : List Entry → Nat
  | Entry.num _ :: rest => argsOf rest + 1
  | _ => 0

/-- Fold one deferred operator into the value list, implying 0 for a
missing left operand. -/
def applyPending (vals : List Int) (o : Op) (b : Int) : List Int :=
  match vals with
  | a :: rest => applyOp o a b :: rest
  | [] => [applyOp o 0 b]

/-- Left-to-right evaluation of the entry run above the topmost barrier
(given bottom-up).  vals collects completed integers (topmost first);
pending is the one deferred operator awaiting its right operand.  A
trailing operator is folded with 0 for its missing right operand so that
evaluation always collapses down to a run of integers (spec section 3). -/
def evalRun (vals : List Int) (pending : Option Op) : List Entry → List Int
  | [] =>
    match pending with
    | some o => applyPending vals o 0
    | none => vals
  | Entry.num n :: rest =>
    match pending with
    | some o => evalRun (applyPending vals o n) none rest
    | none => evalRun (n :: vals) none rest
  | Entry.op o :: rest =>
    match pending with
    | some o' => evalRun (applyPending vals o' 0) (some o) rest
    | none => evalRun vals (some o) rest

/-- Evaluation of a whole stack: collapse the segment above the topmost
barrier to a run of integers, keep everything from the barrier down
(spec section 4.3: "eval() collapses all operators above the top
barrier"). -/
def evalStack (s : List Entry) : List Entry :=
  (evalRun [] none (s.takeWhile (fun e => !e.isBarrier)).reverse).map Entry.num ++
    s.dropWhile (fun e => !e.isBarrier)

/-- Expression evaluator state: the entry stack (topmost first), the
pending unary sign, the numeric radix and the count of open braces
(spec sections 3 and 4.3). -/
structure Expressions where
  stack : List Entry
  numSign : Int
  radix : Int
  braceLevel : Nat
  deriving DecidableEq, Repr

/-- Initial evaluator: empty stack, positive sign, decimal radix. -/
def Expressions.init : Expressions :=
  { stack := [], numSign := 1, radix := 10, braceLevel := 0 }

/-- args() of the evaluator (spec section 3). -/
def Expressions.args (e : Expressions) : Nat :=
  argsOf e.stack

/-- eval() of the evaluator (spec section 4.3). -/
def Expressions.eval (e : Expressions) : Expressions :=
  { e with stack := evalStack e.stack }

/-- push of an integer entry. -/
def Expressions.push (e : Expressions) (n : Int) : Expressions :=
  { e with stack := Entry.num n :: e.stack }

/-- push of an operator/marker entry. -/
def Expressions.pushOp (e : Expressions) (o : Op) : Expressions :=
  { e with stack := Entry.op o :: e.stack }

/-- set_num_sign of the evaluator. -/
def Expressions.setNumSign (e : Expressions) (s : Int) : Expressions :=
  { e with numSign := s }

/-- add_digit: digits take one argument from the stack (0 implied),
multiply it by the radix and add the digit (doc comment of the digit
commands, parser.cpp lines 844-858); the pending sign gives the digit its
sign so that negative constants build up. -/
def Expressions.addDigit (e : Expressions) (d : Nat) : Expressions :=
  match e.stack with
  | Entry.num n :: rest =>
    { e with stack := Entry.num (wrap64 (n * e.radix + e.numSign * d)) :: rest }
  | s => { e with stack := Entry.num (wrap64 (e.numSign * d)) :: s }

/-- push_calc: evaluate pending operators under the top-of-stack barrier
and append the operator (spec section 4.3). -/
def Expressions.pushCalc (e : Expressions) (o : Op) : Expressions :=
  let e' := e.eval
  { e' with stack := Entry.op o :: e'.stack }

/-- pop_num_calc: evaluate, then return the top integer, substituting the
implied value if the run above the barrier is empty (spec section 4.3);
the pending sign is reset once consumed. -/
def Expressions.popNumCalc (e : Expressions) (imply : Int) : Int × Expressions :=
  let e' := e.eval
  match e'.stack with
  | Entry.num n :: rest => (n, { e' with stack := rest, numSign := 1 })
  | _ => (imply, { e' with numSign := 1 })

/-- discard_args: pop and discard everything above the topmost barrier
(doc comment of the escape command, parser.cpp lines 2152-2170). -/
def Expressions.discardArgs (e : Expressions) : Expressions :=
  { e with stack := e.stack.dropWhile (fun x => !x.isBarrier) }

/-- brace_open: push a BRACE barrier (spec section 4.3). -/
def Expressions.braceOpen (e : Expressions) : Expressions :=
  { e with stack := Entry.op Op.brace :: e.stack, braceLevel := e.braceLevel + 1 }

/-- Remove the topmost BRACE marker, keeping all entries above it. -/
def removeTopBrace : List Entry → Option (List Entry)
  | [] => none
  | Entry.op Op.brace :: rest => some rest
  | x :: rest => (removeTopBrace rest).map (x :: ·)

/-- brace_close: evaluate and drop the topmost BRACE marker, keeping the
values (spec section 4.3); closing with no open brace is an error. -/
def Expressions.braceClose (e : Expressions) : Option Expressions :=
  if e.braceLevel = 0 then none
  else
    let e' := e.eval
    (removeTopBrace e'.stack).map fun s =>
      { e' with stack := s, braceLevel := e'.braceLevel - 1 }

/-- Drop entries up to and including the first BRACE marker. -/
def popBraceAll : List Entry → List Entry
  | [] => []
  | Entry.op Op.brace :: rest => rest
  | _ :: rest => popBraceAll rest

/-- Unwind a number of braces, discarding their contents. -/
def unwindBraces : Nat → List Entry → List Entry
  | 0, s => s
  | n + 1, s => unwindBraces n (popBraceAll s)

/-- brace_return: collapse braces back to the target level, retaining the
topmost keep entries (spec section 4.3). -/
def Expressions.braceReturn (e : Expressions) (target keep : Nat) : Expressions :=
  { e with
    stack := e.stack.take keep ++ unwindBraces (e.braceLevel - target) (e.stack.drop keep),
    braceLevel := target }

/-! ## Parser interpreter for loop and macro commands

A small-step machine embedding Execute::step / Execute::macro
(parser.cpp lines 106-287) together with the StateStart::custom cases
for whitespace, digits, the arithmetic operators, braces, comma, the
colon and at modifiers, loop start and end, the conditional loop break,
the escape state (discard/return) and macro invocation via M
(parser.cpp lines 675-1649, 2098-2184; StateMacro::got_register of
qbuffers.cpp lines 1000-1009).  Characters whose commands are outside
this subset raise an unknown-command error, like the default branch of
StateStart::custom.  Undo-token pushes are omitted: the claims settled
on this machine concern the non-undo state only.  The register
specification sub-machine is modelled from the spec as a single
register-name character (section 4.2), and the BEGIN_EXEC contract
follows spec section 4.1. -/

/-- The escape character, ASCII 27 (CTL_KEY_ESC). -/
def escChar : Char :=
  Char.ofNat 27

/-- ASCII upper-casing as used by String::toupper on command characters. -/
def toUpperChar (c : Char) : Char :=
  if 'a' ≤ c ∧ c ≤ 'z' then Char.ofNat (c.toNat - 32) else c

/-- ASCII decimal digit test (g_ascii_isdigit). -/
def isDigitCh (c : Char) : Bool :=
  '0' ≤ c ∧ c ≤ '9'

/-- Bitwise complement of a 64-bit two's complement integer. -/
def intNot (n : Int) : Int :=
  wrap64 (-(n + 1))

/-- Parser states of the modelled subset: the start state, the deferred
escape state and the register-specification state entered by M. -/
inductive StateId where
  | start | escape | expectQReg
  deriving DecidableEq, Repr

/-- Execution modes of the modelled subset (spec section 4.1; the
conditional skip mode is modelled separately with the conditional
command). -/
inductive Mode where
  | normal | parseOnlyLoop
  deriving DecidableEq, Repr

/-- Loop frame: iteration counter (negative means infinite), program
counter of the loop body start, pass-through flag (parser.h LoopContext
as used in parser.cpp). -/
structure LoopCtx where
  counter : Int
  pc : Nat
  passThrough : Bool
  deriving DecidableEq, Repr

/-- Macro invocation frame: the macro text, the program counter within
it (pointing at the NEXT character once a character is dispatched), and
the parent values saved by Execute::macro: parser state, loop frame
pointer and brace level. -/
structure Frame where
  text : List Char
  pc : Nat
  savedState : StateId
  savedFp : Nat
  savedBraceLevel : Nat
  deriving DecidableEq, Repr

/-- Machine state: the macro frame stack (innermost first), current
parser state, mode, loop-skip nesting counter, the single-shot colon and
at modifiers, the expression evaluator, the loop stack (innermost
first), the loop frame pointer, the macro texts of the Q-registers and
the integer of the global search register underscore. -/
structure Machine where
  frames : List Frame
  cur : StateId
  mode : Mode
  nest : Nat
  colon : Bool
  atMod : Bool
  expr : Expressions
  loops : List LoopCtx
  fp : Nat
  regs : List (Char × List Char)
  searchReg : Int
  deriving DecidableEq, Repr

/-- Errors raised by the modelled commands. -/
inductive Err where
  | unknownCommand (c : Char)
  | loopEndWithoutStart
  | breakOutsideLoop
  | missingBrace
  | unterminatedLoop
  | unterminatedCommand
  deriving DecidableEq, Repr

/-- Result of one machine step: continue, halt (all frames done) or an
error aborting execution. -/
inductive StepRes where
  | cont (m : Machine)
  | halt (m : Machine)
  | err (e : Err)
  deriving DecidableEq, Repr

/-- eval_colon (parser.cpp lines 334-343): read and consume the
single-shot colon modifier. -/
def Machine.evalColon (m : Machine) : Bool × Machine :=
  if m.colon then (true, { m with colon := false }) else (false, m)

/-- Program counter of the current (innermost) macro frame. -/
def Machine.curPc (m : Machine) : Nat :=
  match m.frames with
  | f :: _ => f.pc
  | [] => 0

/-- Set the program counter of the current macro frame (loop jumps). -/
def setTopPc (frames : List Frame) (pc : Nat) : List Frame :=
  match frames with
  | f :: rest => { f with pc := pc } :: rest
  | [] => []

/-- Truncate a stack (topmost first) to its bottommost n elements
(LoopStack::clear as used by the Return path of Execute::macro). -/
def truncTo (n : Nat) (l : List α) : List α :=
  l.drop (l.length - n)

/-- Macro text of a Q-register; unknown registers read as empty. -/
def lookupReg (regs : List (Char × List Char)) (c : Char) : List Char :=
  match regs.find? (fun p => p.1 = c) with
  | some p => p.2
  | none => []

/-- Command classification of a raw character as StateStart sees it:
whitespace and the escape/dollar transition are checked on the raw
character, everything else on the upper-cased character, mirroring the
transition table and the toupper call of StateStart::custom. -/
inductive Cmd where
  | ws | esc | mCall | digit
  | plus | minus | star | slash | amp | hash
  | lparen | rparen | comma | colonMod | atMod
  | loopStart | loopEnd | breakCmd | unknown
  deriving DecidableEq, Repr

/-- Classify one character into the modelled command subset. -/
def charCmd (ch : Char) : Cmd :=
  if ch = ' ' ∨ ch = '\x0c' ∨ ch = '\r' ∨ ch = '\n' ∨ ch = '\x0b' then .ws
  else if ch = '$' ∨ ch = escChar then .esc
  else if isDigitCh ch then .digit
  else
    match toUpperChar ch with
    | 'M' => .mCall
    | '+' => .plus
    | '-' => .minus
    | '*' => .star
    | '/' => .slash
    | '&' => .amp
    | '#' => .hash
    | '(' => .lparen
    | ')' => .rparen
    | ',' => .comma
    | ':' => .colonMod
    | '@' => .atMod
    | '<' => .loopStart
    | '>' => .loopEnd
    | ';' => .breakCmd
    | _ => .unknown

/-- StateStart actions for the modelled command subset
(StateStart::custom, parser.cpp lines 829-1649, restricted to the
commands listed in the section header; each case honors the BEGIN_EXEC
contract by doing nothing outside normal mode, except for the
syntactically significant at modifier and the loop start and end
bookkeeping in loop-skip mode). -/
def dispatchStart (m : Machine) (ch : Char) : StepRes :=
  match charCmd ch with
  | .ws => .cont m
  | .esc => .cont { m with cur := .escape }
  | .mCall => .cont { m with cur := .expectQReg }
  | .digit =>
    if m.mode = .normal then
      .cont { m with expr := m.expr.addDigit (ch.toNat - '0'.toNat) }
    else .cont m
  | .plus =>
    if m.mode = .normal then .cont { m with expr := m.expr.pushCalc .add } else .cont m
  | .minus =>
    if m.mode = .normal then
      if m.expr.args = 0 then
        .cont { m with expr := m.expr.setNumSign (-m.expr.numSign) }
      else .cont { m with expr := m.expr.pushCalc .sub }
    else .cont m
  | .star =>
    if m.mode = .normal then .cont { m with expr := m.expr.pushCalc .mul } else .cont m
  | .slash =>
    if m.mode = .normal then .cont { m with expr := m.expr.pushCalc .div } else .cont m
  | .amp =>
    if m.mode = .normal then .cont { m with expr := m.expr.pushCalc .land } else .cont m
  | .hash =>
    if m.mode = .normal then .cont { m with expr := m.expr.pushCalc .lor } else .cont m
  | .lparen =>
    if m.mode = .normal then
      let e :=
        if m.expr.numSign < 0 then
          (((m.expr.setNumSign 1).eval).push (-1)).pushCalc .mul
        else m.expr
      .cont { m with expr := e.braceOpen }
    else .cont m
  | .rparen =>
    if m.mode = .normal then
      match m.expr.braceClose with
      | some e => .cont { m with expr := e }
      | none => .err .missingBrace
    else .cont m
  | .comma =>
    if m.mode = .normal then .cont { m with expr := m.expr.eval.pushOp .new } else .cont m
  | .colonMod =>
    if m.mode = .normal then .cont { m with colon := true } else .cont m
  | .atMod => .cont { m with atMod := true }
  | .loopStart =>
    if m.mode = .parseOnlyLoop then
      .cont { m with nest := m.nest + 1 }
    else
      let e := m.expr.eval
      let p := Machine.evalColon { m with expr := e }
      let m1 := p.2
      let q := m1.expr.popNumCalc (-1)
      if q.1 ≠ 0 then
        let e3 := if p.1 then q.2 else q.2.braceOpen
        .cont { m1 with expr := e3,
                        loops := { counter := q.1, pc := m1.curPc, passThrough := p.1 } :: m1.loops }
      else
        .cont { m1 with expr := q.2, mode := .parseOnlyLoop }
  | .loopEnd =>
    if m.mode = .parseOnlyLoop then
      if m.nest = 0 then .cont { m with mode := .normal }
      else .cont { m with nest := m.nest - 1 }
    else
      if m.loops.length ≤ m.fp then .err .loopEndWithoutStart
      else
        match m.loops with
        | [] => .err .loopEndWithoutStart
        | ctx :: ltail =>
          let p := m.evalColon
          let m1 := p.2
          let e :=
            if ctx.passThrough then m1.expr
            else if p.1 then m1.expr.eval.pushOp .new
            else m1.expr.discardArgs
          if ctx.counter = 1 then
            if ctx.passThrough then .cont { m1 with expr := e, loops := ltail }
            else
              match e.braceClose with
              | some e2 => .cont { m1 with expr := e2, loops := ltail }
              | none => .err .missingBrace
          else
            let newCtr := if 0 ≤ ctx.counter then ctx.counter - 1 else ctx.counter
            .cont { m1 with expr := e,
                            loops := { ctx with counter := newCtr } :: ltail,
                            frames := setTopPc m1.frames ctx.pc }
  | .breakCmd =>
    if m.mode = .normal then
      if m.loops.length ≤ m.fp then .err .breakOutsideLoop
      else
        let q := m.expr.popNumCalc m.searchReg
        let p := Machine.evalColon { m with expr := q.2 }
        let m1 := p.2
        let rc2 := if p.1 then intNot q.1 else q.1
        if 0 ≤ rc2 then
          match m1.loops with
          | [] => .err .breakOutsideLoop
          | ctx :: ltail =>
            let e2 := m1.expr.discardArgs
            if ctx.passThrough then
              .cont { m1 with expr := e2, loops := ltail, mode := .parseOnlyLoop }
            else
              match e2.braceClose with
              | some e3 => .cont { m1 with expr := e3, loops := ltail, mode := .parseOnlyLoop }
              | none => .err .missingBrace
        else .cont m1
    else .cont m
  | .unknown => .err (.unknownCommand ch)

/-- StateEscape actions (StateEscape::custom, parser.cpp lines
2103-2174): a second escape or dollar returns from the macro with the
argument count, anything else discards the arguments and is re-dispatched
through the start state. -/
def dispatchEscape (m : Machine) (ch : Char) : StepRes :=
  if ch = escChar ∨ ch = '$' then
    if m.mode ≠ .normal then .cont { m with cur := .start }
    else
      match m.frames with
      | [] => .halt m
      | f :: rest =>
        let e := m.expr.eval
        let e2 := e.braceReturn f.savedBraceLevel e.args
        .cont { m with frames := rest, cur := f.savedState, fp := f.savedFp,
                       expr := e2, loops := truncTo m.fp m.loops }
  else
    let m1 := if m.mode = .normal then { m with expr := m.expr.discardArgs } else m
    dispatchStart { m1 with cur := .start } ch

/-- Register-specification state entered by M: one register-name
character selects the register whose macro text is invoked as a new
frame (StateMacro::got_register, qbuffers.cpp lines 1000-1009, with
Execute::macro's frame bookkeeping, parser.cpp lines 180-204; the
register specification is modelled from the spec, section 4.2, as a
single character). -/
def dispatchQReg (m : Machine) (ch : Char) : StepRes :=
  if m.mode ≠ .normal then .cont { m with cur := .start }
  else
    let (_, m1) := m.evalColon
    let text := lookupReg m1.regs (toUpperChar ch)
    .cont { m1 with
            cur := .start,
            frames := { text := text, pc := 0, savedState := .start,
                        savedFp := m1.fp, savedBraceLevel := m1.expr.braceLevel } :: m1.frames,
            fp := m1.loops.length }

/-- Character dispatch on the current parser state. -/
def dispatch (m : Machine) (ch : Char) : StepRes :=
  match m.cur with
  | .start => dispatchStart m ch
  | .escape => dispatchEscape m ch
  | .expectQReg => dispatchQReg m ch

/-- End-of-macro handling of Execute::macro (parser.cpp lines 206-287):
the escape state discards arguments (StateEscape::end_of_macro), a
register specification left open is an unterminated command, remaining
loop frames above the frame pointer are an unterminated loop; otherwise
the frame is popped and the parent state, frame pointer and program
counter are restored. -/
def endOfMacro (m : Machine) (f : Frame) (rest : List Frame) : StepRes :=
  match m.cur with
  | .expectQReg => .err .unterminatedCommand
  | st =>
    let m1 := if st = .escape then { m with expr := m.expr.discardArgs } else m
    if m1.fp < m1.loops.length then .err .unterminatedLoop
    else .cont { m1 with frames := rest, cur := f.savedState, fp := f.savedFp }

/-- One step of the executor (Execute::step, parser.cpp lines 106-150):
dispatch the character at the current program counter, which is
incremented before the action runs so that loop jumps land on the body
start. -/
def Machine.step (m : Machine) : StepRes :=
  match m.frames with
  | [] => .halt m
  | f :: rest =>
    if f.pc < f.text.length then
      dispatch { m with frames := { f with pc := f.pc + 1 } :: rest }
        (f.text.getD f.pc (Char.ofNat 0))
    else
      endOfMacro m f rest

/-- Result of a bounded run: normal halt, an error, or fuel exhaustion. -/
inductive RunRes where
  | halted (m : Machine)
  | failed (e : Err)
  | fuelOut (m : Machine)
  deriving DecidableEq, Repr

/-- Run the machine for at most the given number of steps. -/
def run : Nat → Machine → RunRes
  | 0, m => .fuelOut m
  | n + 1, m =>
    match m.step with
    | .halt m1 => .halted m1
    | .err e => .failed e
    | .cont m1 => run n m1

/-- Integer entries of a stack listed bottom-up, as a command line
leaves them. -/
def stackValues (s : List Entry) : List Int :=
  s.reverse.filterMap fun e =>
    match e with
    | Entry.num n => some n
    | Entry.op _ => none

/-- Expression stack of a halted run. -/
def RunRes.finalStack : RunRes → Option (List Entry)
  | .halted m => some m.expr.stack
  | _ => none

/-- Initial machine executing the given top-level macro text. -/
def initMachine (text : List Char) : Machine :=
  { frames := [{ text := text, pc := 0, savedState := .start, savedFp := 0, savedBraceLevel := 0 }],
    cur := .start, mode := .normal, nest := 0, colon := false, atMod := false,
    expr := Expressions.init, loops := [], fp := 0, regs := [], searchReg := 0 }

/-! ## Buffer-ring save path

Embedding of Ring::save (qbuffers.cpp lines 620-664) and make_savepoint
(qbuffers.cpp lines 583-616), with the filesystem as an explicit
path-to-contents map.  Paths are abstract strings taken as already
canonical; Buffer::set_filename is modelled from the spec (section 4.4:
the canonical filename is recorded) as recording the path unchanged, and
the UndoTokenRemoveFile constructor is modelled from the spec (section
4.5: remove_file unlinks a file). -/

/-- Association-list lookup keyed by decidable equality. -/
def alGet [DecidableEq α] (l : List (α × β)) (k : α) : Option β :=
  (l.find? (fun q => q.1 = k)).map (·.2)

/-- Association-list removal. -/
def alRemove [DecidableEq α] (l : List (α × β)) (k : α) : List (α × β) :=
  l.filter (fun q => ¬(q.1 = k))

/-- Association-list update, replacing a previous binding. -/
def alSet [DecidableEq α] (l : List (α × β)) (k : α) (v : β) : List (α × β) :=
  (k, v) :: alRemove l k

/-- Filesystem model: a map from paths to file contents. -/
abbrev FileSys := List (String × String)

/-- g_rename: fails when the source does not exist, else moves the
contents (overwriting any destination). -/
def fsRename (fs : FileSys) (src dst : String) : Option FileSys :=
  match alGet fs src with
  | none => none
  | some c => some (alSet (alRemove fs src) dst c)

/-- Buffer fields relevant to saving: filename, dirty flag, savepoint
counter (spec section 3, Document). -/
structure SaveBuffer where
  filename : Option String
  dirty : Bool
  savepointId : Nat
  deriving DecidableEq, Repr

/-- Undo tokens pushed by the save path: the savepoint-restore token of
make_savepoint, the remove-file token for saves of new files, and the
variable snapshots of the dirty flag and the filename string. -/
inductive SaveTok where
  | restoreSavePoint (savepoint : String)
  | removeFile (path : String)
  | varDirty (old : Bool)
  | strFilename (old : Option String)
  deriving DecidableEq, Repr

/-- State of the save path: the filesystem, ring.current, the editor
widget text of the current buffer (SCI_GETCHARACTERPOINTER with
SCI_GETLENGTH), the undo.enabled flag and the undo journal (newest
first). -/
structure SaveState where
  fs : FileSys
  current : Option SaveBuffer
  content : String
  undoEnabled : Bool
  journal : List SaveTok
  deriving DecidableEq, Repr

/-- Savepoint path: a hidden sibling of the original named
.teco-(basename)-(id); dirname and basename handling is flattened on the
abstract path strings. -/
def savepointName (filename : String) (id : Nat) : String :=
  ".teco-" ++ filename ++ "-" ++ toString id

/-- make_savepoint (qbuffers.cpp lines 583-616): rename the buffer's
file to the savepoint path and push a restore token; on rename failure
only a warning is emitted. -/
def makeSavepoint (s : SaveState) (buf : SaveBuffer) (f : String) : SaveState × SaveBuffer :=
  let sp := savepointName f buf.savepointId
  match fsRename s.fs f sp with
  | some fs2 =>
    ({ s with fs := fs2, journal := SaveTok.restoreSavePoint sp :: s.journal },
     { buf with savepointId := buf.savepointId + 1 })
  | none => (s, buf)

/-- Buffer::set_filename.  Modelled from the spec: set_filename is not
among the provided sources; per spec section 4.4 it records the
canonical absolute filename, and the model's paths are abstract strings
taken as already canonical, so the path is recorded unchanged. -/
def setFilenameModel (f : String) : String :=
  f

/-- Ring::save (qbuffers.cpp lines 620-664): none signals the failure
paths (no current buffer, no filename, write failure - the modelled
write always succeeds). -/
def ringSave (s : SaveState) (arg : Option String) : Option SaveState :=
  match s.current with
  | none => none
  | some buf =>
    match (match arg with | some f => some f | none => buf.filename) with
    | none => none
    | some filename =>
      let sb :=
        if s.undoEnabled then
          match buf.filename with
          | some cf =>
            if (alGet s.fs cf).isSome then makeSavepoint s buf cf
            else ({ s with journal := SaveTok.removeFile filename :: s.journal }, buf)
          | none => ({ s with journal := SaveTok.removeFile filename :: s.journal }, buf)
        else (s, buf)
      let s1 := sb.1
      let buf1 := sb.2
      let buf2 := { buf1 with dirty := false, filename := some (setFilenameModel filename) }
      some { s1 with
             fs := alSet s1.fs filename s.content,
             current := some buf2,
             journal := SaveTok.strFilename buf1.filename ::
                        SaveTok.varDirty buf1.dirty :: s1.journal }

/-- Save tokens that restore a savepoint. -/
def SaveTok.isRestore : SaveTok → Bool
  | .restoreSavePoint _ => true
  | _ => false

/-! ## Q-register string accessors

Embedding of QRegisterData::set_string and QRegisterData::get_string
(qbuffers.cpp lines 87-98 and 135-151) with the editor widget as an
explicit state: a store of documents, the currently installed document
pointer and the caret.  QRegisterData::get_document (declared in the
headers, not among the provided sources) is modelled from the spec
(section 3, Register: the Document payload is created lazily). -/

/-- Editor widget state: document store, installed document pointer
(SCI_SETDOCPOINTER), caret position. -/
structure Widget where
  docs : List (Nat × String)
  currentDoc : Option Nat
  caret : Int
  deriving DecidableEq, Repr

/-- SCI_SETTEXT on the installed document. -/
def Widget.setText (w : Widget) (txt : String) : Widget :=
  match w.currentDoc with
  | some d => { w with docs := alSet w.docs d txt }
  | none => w

/-- SCI_GETTEXT of the installed document. -/
def Widget.getText (w : Widget) : String :=
  match w.currentDoc with
  | some d => (alGet w.docs d).getD ""
  | none => ""

/-- Q-register data: integer value, optional owned document, dot, and
the must_undo flag (spec section 3, Register). -/
structure QRegData where
  integer : Int
  doc : Option Nat
  dot : Int
  mustUndo : Bool
  deriving DecidableEq, Repr

/-- A currently edited entity (ring buffer or register) as seen by
current_save_dot/current_edit: its document and its saved dot. -/
structure DocOwner where
  doc : Nat
  dot : Int
  deriving DecidableEq, Repr

/-- Editor-side state around the register accessors: the widget, the
next fresh document handle, and the currently edited buffer or register
(ring.current / QRegisters::current, at most one of which is set). -/
structure EdState where
  widget : Widget
  nextDoc : Nat
  ringCur : Option DocOwner
  qregCur : Option DocOwner
  deriving DecidableEq, Repr

/-- QRegisterData::get_document.  Modelled from the spec: the payload
document is created lazily on first access (spec section 3). -/
def getDocument (st : EdState) (r : QRegData) : Nat × EdState × QRegData :=
  match r.doc with
  | some d => (d, st, r)
  | none =>
    (st.nextDoc,
     { st with nextDoc := st.nextDoc + 1,
               widget := { st.widget with docs := (st.nextDoc, "") :: st.widget.docs } },
     { r with doc := some st.nextDoc })

/-- QRegisterData::edit (qbuffers.cpp lines 153-158): install the
register's document and go to its dot. -/
def qregEdit (st : EdState) (r : QRegData) : EdState × QRegData :=
  let dsr := getDocument st r
  let st1 := dsr.2.1
  ({ st1 with widget := { st1.widget with currentDoc := some dsr.1, caret := dsr.2.2.dot } },
   dsr.2.2)

/-- current_save_dot (qbuffers.cpp lines 67-76): record the caret into
the currently edited entity's dot. -/
def currentSaveDot (st : EdState) : EdState :=
  match st.ringCur with
  | some o => { st with ringCur := some { o with dot := st.widget.caret } }
  | none =>
    match st.qregCur with
    | some o => { st with qregCur := some { o with dot := st.widget.caret } }
    | none => st

/-- current_edit (qbuffers.cpp lines 78-85): re-install the currently
edited entity's document. -/
def currentEdit (st : EdState) : EdState :=
  match st.ringCur with
  | some o => { st with widget := { st.widget with currentDoc := some o.doc, caret := o.dot } }
  | none =>
    match st.qregCur with
    | some o => { st with widget := { st.widget with currentDoc := some o.doc, caret := o.dot } }
    | none => st

/-- QRegisterData::set_string (qbuffers.cpp lines 87-98): edit the
register's document, reset its dot, set the text, and re-edit the
current entity. -/
def setString (st : EdState) (r : QRegData) (v : String) : EdState × QRegData :=
  let p := qregEdit st r
  let r1 := { p.2 with dot := 0 }
  let st1 := { p.1 with widget := p.1.widget.setText v }
  (currentEdit st1, r1)

/-- QRegisterData::get_string (qbuffers.cpp lines 135-151): save the
current dot, edit the register's document, read the text, re-edit the
current entity. -/
def getString (st : EdState) (r : QRegData) : String × EdState × QRegData :=
  let st0 := currentSaveDot st
  let p := qregEdit st0 r
  let txt := p.1.widget.getText
  (txt, currentEdit p.1, p.2)

/-! ## Q-register save/restore stack

Embedding of QRegisterStack::pop (qbuffers.cpp lines 318-347) and
StatePopQReg::got_register (qbuffers.cpp lines 883-892). -/

/-- Stack entry: saved integer, owned document, dot. -/
structure StackEnt where
  integer : Int
  doc : Option Nat
  dot : Int
  deriving DecidableEq, Repr

/-- Undo tokens pushed by the pop path. -/
inductive QsTok where
  | varInt (old : Int)
  | varStr (old : Option Nat)
  | varDot (old : Int)
  | pushEnt (e : StackEnt)
  deriving DecidableEq, Repr

/-- QRegisterStack::pop: false on an empty stack (nothing touched),
otherwise exchange the entry's values and document ownership with the
register, journal the old values, and hand the entry to the undo
stack. -/
def qstackPop (stk : List StackEnt) (r : QRegData) (j : List QsTok) :
    Bool × List StackEnt × QRegData × List QsTok :=
  match stk with
  | [] => (false, [], r, j)
  | e :: rest =>
    let j1 := if r.mustUndo then QsTok.varInt r.integer :: j else j
    let oldStr := r.doc
    let j2 := if r.mustUndo then QsTok.varStr r.doc :: j1 else j1
    let j3 := QsTok.varStr e.doc :: j2
    let e1 := { e with doc := oldStr }
    let j4 := if r.mustUndo then QsTok.varDot r.dot :: j3 else j3
    let r1 := { r with integer := e.integer, doc := e.doc, dot := e.dot }
    (true, rest, r1, QsTok.pushEnt e1 :: j4)

/-- StatePopQReg::got_register: outside normal mode the action is
skipped (BEGIN_EXEC); otherwise a failing pop raises the
stack-is-empty error. -/
def statePopQReg (normalMode : Bool) (stk : List StackEnt) (r : QRegData) (j : List QsTok) :
    Except Unit (List StackEnt × QRegData × List QsTok) :=
  if !normalMode then .ok (stk, r, j)
  else
    let res := qstackPop stk r j
    if res.1 then .ok res.2 else .error ()

/-! ## Conditional command

Embedding of StateCondCommand::custom (parser.cpp lines 1850-1949).
The conditional skip mode is modelled here with its own mode type since
the loop/macro machine above never enters it. -/

/-- Modes as seen by the conditional command. -/
inductive CMode where
  | normal | parseOnlyLoop | parseOnlyCond
  deriving DecidableEq, Repr

/-- Errors of the conditional command. -/
inductive CondErr where
  | argExpected
  | invalidCond (c : Char)
  deriving DecidableEq, Repr

/-- Truncation of a tecoInt to a signed char, as the (gchar) casts of
the condition tests perform. -/
def gcharOf (v : Int) : Int :=
  let r := Int.emod v 256
  if 128 ≤ r then r - 256 else r

/-- g_ascii_isalpha on a signed char value. -/
def isAlphaI (c : Int) : Bool :=
  (65 ≤ c ∧ c ≤ 90) ∨ (97 ≤ c ∧ c ≤ 122)

/-- g_ascii_isdigit on a signed char value. -/
def isDigitI (c : Int) : Bool :=
  48 ≤ c ∧ c ≤ 57

/-- g_ascii_isalnum on a signed char value. -/
def isAlnumI (c : Int) : Bool :=
  isAlphaI c || isDigitI c

/-- g_ascii_islower on a signed char value. -/
def isLowerI (c : Int) : Bool :=
  97 ≤ c ∧ c ≤ 122

/-- g_ascii_isupper on a signed char value. -/
def isUpperI (c : Int) : Bool :=
  65 ≤ c ∧ c ≤ 90

/-- The condition test for an upper-cased test kind; none for an
invalid kind.  The tilde kind tests the argument count of the evaluated
stack; all others test the popped value. -/
def condTest (u : Char) (value : Int) (e : Expressions) : Option Bool :=
  let c := gcharOf value
  if u = '~' then some (e.args = 0)
  else if u = 'A' then some (isAlphaI c)
  else if u = 'C' then some (isAlnumI c || c = 46 || c = 36 || c = 95)
  else if u = 'D' then some (isDigitI c)
  else if u = 'I' then some (c = 47)
  else if u = 'S' ∨ u = 'T' then some (decide (value < 0))
  else if u = 'F' ∨ u = 'U' then some (decide (0 ≤ value))
  else if u = 'E' ∨ u = '=' then some (decide (value = 0))
  else if u = 'G' ∨ u = '>' then some (decide (0 < value))
  else if u = 'L' ∨ u = '<' then some (decide (value < 0))
  else if u = 'N' then some (decide (value ≠ 0))
  else if u = 'R' then some (isAlnumI c)
  else if u = 'V' then some (isLowerI c)
  else if u = 'W' then some (isUpperI c)
  else none

/-- StateCondCommand::custom: in conditional-skip mode only the nesting
counter is incremented; in normal mode the stack is evaluated and, for
every kind except the tilde, exactly one value is popped (an
argument-expected error if none remains); an invalid kind is an error
in every mode; in normal mode a false test enters conditional-skip
mode. -/
def stateCondCommand (mode : CMode) (nest : Nat) (e : Expressions) (ch : Char) :
    Except CondErr (CMode × Nat × Expressions) :=
  let popped : Except CondErr (Int × Expressions) :=
    match mode with
    | .parseOnlyCond => .ok (0, e)
    | .parseOnlyLoop => .ok (0, e)
    | .normal =>
      let e1 := e.eval
      if ch = '~' then .ok (0, e1)
      else if e1.args = 0 then .error .argExpected
      else .ok (e1.popNumCalc e1.numSign)
  match popped with
  | .error er => .error er
  | .ok (value, e1) =>
    let nest1 := if mode = .parseOnlyCond then nest + 1 else nest
    match condTest (toUpperChar ch) value e1 with
    | none => .error (.invalidCond ch)
    | some result =>
      if mode ≠ .normal then .ok (mode, nest1, e1)
      else if result then .ok (.normal, nest1, e1)
      else .ok (.parseOnlyCond, nest1, e1)

/-! ## Movement commands

Embedding of the J, C, R, L, B and W commands of StateStart::custom
(parser.cpp lines 1287-1442) and of StateStart::move_chars and
StateStart::move_lines (parser.cpp lines 746-775).  The Scintilla
document is an opaque collaborator (spec sections 1 and 6), modelled by
its length, its line geometry and its word-end motions as explicit
functions.  Validate::pos and Validate::line are not among the provided
sources and are modelled from the spec (section 8: a jump to exactly the
length succeeds, to length+1 fails).  The SUCCESS and FAILURE condition
booleans are modelled from the spec (section 4.1: negative is
truth/success, non-negative is falsehood/failure; IS_FAILURE(b) is
b greater or equal 0). -/

/-- SUCCESS condition boolean of sciteco.h, modelled from the spec. -/
def tecoSuccess : Int := -1

/-- FAILURE condition boolean of sciteco.h, modelled from the spec. -/
def tecoFailure : Int := 0

/-- IS_FAILURE of sciteco.h, modelled from the spec. -/
def isFailureB (b : Int) : Bool :=
  0 ≤ b

/-- The opaque document as the movement commands observe it. -/
structure MoveEnv where
  length : Int
  lineOfPos : Int → Int
  lineStart : Int → Int
  lineCount : Int
  wordRight : Int → Int
  wordLeft : Int → Int

/-- Validate::pos, modelled from the spec. -/
def validPos (env : MoveEnv) (p : Int) : Bool :=
  0 ≤ p ∧ p ≤ env.length

/-- Validate::line, modelled from the spec. -/
def validLine (env : MoveEnv) (l : Int) : Bool :=
  0 ≤ l ∧ l < env.lineCount

/-- State of a movement command: the document, the dot, the expression
stack and the colon modifier. -/
structure MoveSt where
  env : MoveEnv
  dot : Int
  expr : Expressions
  colon : Bool

/-- Movement commands covered by the claim. -/
inductive MoveCmd where
  | J | C | R | L | B | W
  deriving DecidableEq, Repr

/-- Movement errors (MoveError carrying the command). -/
inductive MoveErr where
  | moveError (c : MoveCmd)
  deriving DecidableEq, Repr

/-- eval_colon on a movement state. -/
def MoveSt.evalColon (st : MoveSt) : Bool × MoveSt :=
  if st.colon then (true, { st with colon := false }) else (false, st)

/-- pop_num_calc with the pending sign implied. -/
def Expressions.popNumCalcD (e : Expressions) : Int × Expressions :=
  e.popNumCalc e.numSign

/-- StateStart::move_chars (parser.cpp lines 746-759). -/
def moveChars (st : MoveSt) (n : Int) : Int × MoveSt :=
  let pos := st.dot
  if !validPos st.env (pos + n) then (tecoFailure, st)
  else (tecoSuccess, { st with dot := pos + n })

/-- StateStart::move_lines (parser.cpp lines 761-775). -/
def moveLines (st : MoveSt) (n : Int) : Int × MoveSt :=
  let pos := st.dot
  let line := st.env.lineOfPos pos + n
  if !validLine st.env line then (tecoFailure, st)
  else (tecoSuccess, { st with dot := st.env.lineStart line })

/-- The word-end motion loop of the W command: iterate the word motion,
stopping early when the position no longer changes; returns the final
position and whether all steps moved. -/
def wordLoop (f : Int → Int) : Nat → Int → Int × Bool
  | 0, pos => (pos, true)
  | k + 1, pos =>
    let p := f pos
    if p = pos then (pos, false) else wordLoop f k p

/-- The movement commands J, C, R, L, B, W of StateStart::custom. -/
def execMove (cmd : MoveCmd) (st : MoveSt) : Except MoveErr MoveSt :=
  match cmd with
  | .J =>
    let p := st.expr.popNumCalc 0
    let st1 := { st with expr := p.2 }
    if validPos st1.env p.1 then
      let st2 := { st1 with dot := p.1 }
      let q := st2.evalColon
      if q.1 then .ok { q.2 with expr := q.2.expr.push tecoSuccess } else .ok q.2
    else
      let q := st1.evalColon
      if q.1 then .ok { q.2 with expr := q.2.expr.push tecoFailure }
      else .error (.moveError .J)
  | .C =>
    let p := st.expr.popNumCalcD
    let rs := moveChars { st with expr := p.2 } p.1
    let q := rs.2.evalColon
    if q.1 then .ok { q.2 with expr := q.2.expr.push rs.1 }
    else if isFailureB rs.1 then .error (.moveError .C)
    else .ok q.2
  | .R =>
    let p := st.expr.popNumCalcD
    let rs := moveChars { st with expr := p.2 } (-p.1)
    let q := rs.2.evalColon
    if q.1 then .ok { q.2 with expr := q.2.expr.push rs.1 }
    else if isFailureB rs.1 then .error (.moveError .R)
    else .ok q.2
  | .L =>
    let p := st.expr.popNumCalcD
    let rs := moveLines { st with expr := p.2 } p.1
    let q := rs.2.evalColon
    if q.1 then .ok { q.2 with expr := q.2.expr.push rs.1 }
    else if isFailureB rs.1 then .error (.moveError .L)
    else .ok q.2
  | .B =>
    let p := st.expr.popNumCalcD
    let rs := moveLines { st with expr := p.2 } (-p.1)
    let q := rs.2.evalColon
    if q.1 then .ok { q.2 with expr := q.2.expr.push rs.1 }
    else if isFailureB rs.1 then .error (.moveError .B)
    else .ok q.2
  | .W =>
    let p := st.expr.popNumCalcD
    let st1 := { st with expr := p.2 }
    let v := p.1
    let lp :=
      if v < 0 then wordLoop st1.env.wordLeft (-v).toNat st1.dot
      else wordLoop st1.env.wordRight v.toNat st1.dot
    if lp.2 then
      let st2 := { st1 with dot := lp.1 }
      let q := st2.evalColon
      if q.1 then .ok { q.2 with expr := q.2.expr.push tecoSuccess } else .ok q.2
    else
      let q := st1.evalColon
      if q.1 then .ok { q.2 with expr := q.2.expr.push tecoFailure }
      else .error (.moveError .W)

/-! ## Generic parser transition procedure

Embedding of State::input and State::get_next_state (parser.cpp lines
345-380) over an arbitrary state set: each state has a 256-entry
transition table (indexed by the upper-cased byte, skipped entirely for
bytes whose signed gchar value upper-cases outside 0..255) and a custom
fallback which may return the next state, return null (a syntax error)
or throw.  The transition loop re-feeds the NUL character after each
state change until the state maps to itself; the journal records the
prior current state exactly when the final state differs from it. -/

/-- Parser errors of the transition procedure: a syntax error raised for
a null custom result, or an error thrown by custom itself. -/
inductive PErr where
  | syntaxErr (chr : Int)
  | customErr
  deriving DecidableEq, Repr

/-- Generic state description: transition table plus custom fallback. -/
structure PTable (σ : Type) where
  transitions : σ → Nat → Option σ
  custom : σ → Int → Except PErr (Option σ)

/-- String::toupper on a signed character value. -/
def toupperI (c : Int) : Int :=
  if 97 ≤ c ∧ c ≤ 122 then c - 32 else c

/-- State::get_next_state (parser.cpp lines 366-380): consult the table
at the upper-cased byte; on a miss run custom; a null custom result is a
syntax error. -/
def pNext (t : PTable σ) (s : σ) (chr : Int) : Except PErr σ :=
  let upper := toupperI chr
  let fromTable := if 0 ≤ upper ∧ upper < 256 then t.transitions s upper.toNat else none
  match fromTable with
  | some nxt => .ok nxt
  | none =>
    match t.custom s chr with
    | .ok (some nxt) => .ok nxt
    | .ok none => .error (.syntaxErr chr)
    | .error e => .error e

/-- The inner transition loop of State::input: repeat get_next_state,
feeding NUL after the first character, until a state maps to itself;
fuel bounds the loop, with none signalling exhaustion. -/
def pLoop (t : PTable σ) [DecidableEq σ] : Nat → σ → Int → Except PErr (Option σ)
  | 0, _, _ => .ok none
  | fuel + 1, s, chr =>
    match pNext t s chr with
    | .error e => .error e
    | .ok nxt => if nxt = s then .ok (some s) else pLoop t fuel nxt 0

/-- State::input (parser.cpp lines 345-364): run the transition loop
from the current state and set its result as current, journaling the
prior state exactly when the result differs from it. -/
def pInput (t : PTable σ) [DecidableEq σ] (cur : σ) (journal : List σ) (chr : Int)
    (fuel : Nat) : Except PErr (Option (σ × List σ)) :=
  match pLoop t fuel cur chr with
  | .error e => .error e
  | .ok none => .ok none
  | .ok (some s) => .ok (some (s, if s = cur then journal else cur :: journal))

/-! ## The EB command

Embedding of StateEditFile::initial and StateEditFile::done
(qbuffers.cpp lines 769-860) over a buffer ring of filenames.  The
two-argument pop_num_calc of this translation unit follows the spec
(section 4.3: the default value multiplied by the sign is substituted
when the run above the barrier is empty).  Glob expansion is an external
collaborator (spec section 1) and is not modelled: every filename
argument takes the non-glob path of done.  Edit hooks are disabled by
the default ED flags and are omitted. -/

/-- pop_num_calc with explicit default and sign, as called by
qbuffers.cpp; modelled from the spec, section 4.3. -/
def Expressions.popNumCalcOld (e : Expressions) (imply sign : Int) : Int × Expressions :=
  let e1 := e.eval
  match e1.stack with
  | Entry.num n :: rest => (n, { e1 with stack := rest, numSign := 1 })
  | _ => (imply * sign, { e1 with numSign := 1 })

/-- Ring and editor state as the EB command observes it: the buffer
filenames in ring order, the current buffer index, whether a register is
edited instead, the expression stack and the chooser-popup flag. -/
structure EBState where
  buffers : List (Option String)
  current : Option Nat
  qregCurrent : Bool
  expr : Expressions
  popupShown : Bool
  deriving DecidableEq, Repr

/-- Errors of the EB command. -/
inductive EBErr where
  | invalidBufferId (id : Int)
  | stringAfterId
  deriving DecidableEq, Repr

/-- Ring::edit by ordinal (qbuffers.cpp lines 437-447 and 473-490):
ordinal 1 is the first buffer; misses leave the ring untouched. -/
def ringEditId (st : EBState) (id : Int) : Option EBState :=
  if 1 ≤ id ∧ id ≤ st.buffers.length then
    some { st with current := some (id - 1).toNat, qregCurrent := false }
  else none

/-- Ring::edit by filename (qbuffers.cpp lines 492-532): switch to the
buffer with that name or append a fresh buffer; a missing name selects a
fresh unnamed buffer. -/
def ringEditName (st : EBState) (f : Option String) : EBState :=
  match f with
  | some name =>
    match st.buffers.findIdx? (· = some name) with
    | some i => { st with current := some i, qregCurrent := false }
    | none => { st with buffers := st.buffers ++ [some name],
                        current := some st.buffers.length, qregCurrent := false }
  | none => { st with buffers := st.buffers ++ [none],
                      current := some st.buffers.length, qregCurrent := false }

/-- StateEditFile::initial (qbuffers.cpp lines 790-808): pop the buffer
id (default minus one); id zero shows the chooser, a positive id forbids
the filename argument and switches buffers at once (an invalid id is an
error).  Returns the state and the allowFilename flag. -/
def ebInitial (st : EBState) : Except EBErr (EBState × Bool) :=
  let p := st.expr.popNumCalcOld 1 (-1)
  let st1 := { st with expr := p.2 }
  if p.1 = 0 then .ok ({ st1 with popupShown := true }, true)
  else if 0 < p.1 then
    match ringEditId st1 p.1 with
    | some st2 => .ok (st2, false)
    | none => .error (.invalidBufferId p.1)
  else .ok (st1, true)

/-- StateEditFile::done (qbuffers.cpp lines 810-860): outside normal
mode nothing happens (BEGIN_EXEC); with a buffer selected by id a
non-empty string argument is an error and an empty one completes the
command; otherwise the string argument selects or creates a buffer. -/
def ebDone (normalMode : Bool) (st : EBState) (allowFilename : Bool) (str : String) :
    Except EBErr EBState :=
  if !normalMode then .ok st
  else if !allowFilename then
    if str ≠ "" then .error .stringAfterId else .ok st
  else .ok (ringEditName st (if str = "" then none else some str))

/-! ## Invariants, result extractors and concrete instances -/

/-- Chain condition on the saved frame pointers: every frame's saved
frame pointer is bounded by the frame pointer current while that frame's
callee runs. -/
def fpChainB : Nat → List Frame → Bool
  | _, [] => true
  | cur, f :: rest => decide (f.savedFp ≤ cur) && fpChainB f.savedFp rest

/-- Machine invariant of the loop stack: the loop stack never holds
fewer frames than the current frame pointer, and the saved frame
pointers are chained. -/
def MachInv (m : Machine) : Prop :=
  m.fp ≤ m.loops.length ∧ fpChainB m.fp m.frames = true

/-- Whether the head of an entry list (if any) is a barrier; used to
characterize the remainder left by evaluation. -/
def headBarrier : List Entry → Bool
  | [] => true
  | e :: _ => e.isBarrier

/-- Value pushed on top of the expression stack by a successful movement
command. -/
def pushedValue : Except MoveErr MoveSt → Option Int
  | .ok st =>
    match st.expr.stack with
    | Entry.num n :: _ => some n
    | _ => none
  | .error _ => none

/-- Whether a movement command raised an error. -/
def isMoveErr : Except MoveErr MoveSt → Bool
  | .error _ => true
  | .ok _ => false

/-- The upper-cased conditional test kinds other than the tilde. -/
def condOtherKinds : List Char :=
  ['A', 'C', 'D', 'I', 'S', 'T', 'F', 'U', 'E', '=', 'G', '>', 'L', '<', 'N', 'R', 'V', 'W']

/-- The machine of the loop-aggregation scenario. -/
def c2Machine : Machine :=
  initMachine "0 3<1+:>".data

/-- The loop frame of the aggregation scenario during its first
iteration. -/
def c2MidCtx : LoopCtx :=
  { counter := 3, pc := 4, passThrough := false }

/-- The aggregation-scenario machine immediately before its first
colon-modified loop end is dispatched. -/
def c2Mid : Machine :=
  { frames := [{ text := "0 3<1+:>".data, pc := 8, savedState := .start, savedFp := 0,
                 savedBraceLevel := 0 }],
    cur := .start, mode := .normal, nest := 0, colon := true, atMod := false,
    expr := { stack := [Entry.op Op.add, Entry.num 1, Entry.op Op.brace], numSign := 1,
              radix := 10, braceLevel := 1 },
    loops := [c2MidCtx], fp := 0, regs := [], searchReg := 0 }

/-- A machine whose single frame holds an empty macro: its first step
exits the macro. -/
def c5Machine : Machine :=
  initMachine "".data

/-- The machine after the empty macro's frame is popped. -/
def c5Next : Machine :=
  { c5Machine with frames := [] }

/-- A machine about to execute the conditional break outside any loop. -/
def c6Machine : Machine :=
  initMachine ";".data

/-- Save state of the counterexample: an unnamed buffer saved to a path
that exists on disk. -/
def saveStC : SaveState :=
  { fs := [("t", "old")], current := some { filename := none, dirty := true, savepointId := 0 },
    content := "new", undoEnabled := true, journal := [] }

/-- Result of saving the unnamed buffer over the existing file. -/
def saveStCRes : SaveState :=
  { fs := [("t", "new")],
    current := some { filename := some "t", dirty := false, savepointId := 0 },
    content := "new", undoEnabled := true,
    journal := [SaveTok.strFilename none, SaveTok.varDirty true, SaveTok.removeFile "t"] }

/-- Save state of the witness: a buffer named f, with f on disk. -/
def saveStW : SaveState :=
  { fs := [("f", "orig")], current := some { filename := some "f", dirty := true, savepointId := 0 },
    content := "edited", undoEnabled := true, journal := [] }

/-- Result of saving the named buffer: the savepoint holds the old
contents and a restore token is journaled. -/
def saveStWRes : SaveState :=
  { fs := [("f", "edited"), (".teco-f-0", "orig")],
    current := some { filename := some "f", dirty := false, savepointId := 1 },
    content := "edited", undoEnabled := true,
    journal := [SaveTok.strFilename (some "f"), SaveTok.varDirty true,
                SaveTok.restoreSavePoint ".teco-f-0"] }

/-- A document environment for the movement witnesses: five characters,
one line, word motions that never move. -/
def moveEnvEx : MoveEnv :=
  { length := 5, lineOfPos := fun _ => 0, lineStart := fun _ => 0, lineCount := 1,
    wordRight := fun p => p, wordLeft := fun p => p }

/-- Colon-modified C command about to fail: moving six characters in a
five-character document. -/
def moveStFail : MoveSt :=
  { env := moveEnvEx, dot := 0,
    expr := { stack := [Entry.num 6], numSign := 1, radix := 10, braceLevel := 0 },
    colon := true }

/-- Colon-modified C command about to succeed: moving one character. -/
def moveStOk : MoveSt :=
  { env := moveEnvEx, dot := 0,
    expr := { stack := [Entry.num 1], numSign := 1, radix := 10, braceLevel := 0 },
    colon := true }

/-- Two-state set for the transition-procedure witness. -/
inductive PS where
  | s0 | s1
  deriving DecidableEq, Repr

/-- Witness table: byte 65 sends the first state to the second; NUL maps
every state to itself; custom always returns null. -/
def pTableEx : PTable PS :=
  { transitions := fun s b =>
      if b = 0 then some s
      else if b = 65 then (match s with | .s0 => some .s1 | .s1 => some .s1)
      else none,
    custom := fun _ _ => .ok none }

/-- Expression state with a single argument, for the conditional
witness. -/
def condExprEx : Expressions :=
  { stack := [Entry.num 5], numSign := 1, radix := 10, braceLevel := 0 }

/-- Register with a document payload, for the stack-pop witness. -/
def qregEx : QRegData :=
  { integer := 7, doc := some 3, dot := 2, mustUndo := true }

/-- Ring of two named buffers with a two-argument stack, for the EB
witness. -/
def ebStEx : EBState :=
  { buffers := [some "a", some "b"], current := some 0, qregCurrent := false,
    expr := { stack := [Entry.num 2], numSign := 1, radix := 10, braceLevel := 0 },
    popupShown := false }

/-! ## Association-list and evaluation lemmas -/

/-- Looking up the key just set yields the new value. -/
theorem alGet_alSet [DecidableEq α] (l : List (α × β)) (k : α) (v : β) :
    alGet (alSet l k v) k = some v := by
  simp [alGet, alSet]

/-- Removing one key leaves lookups of other keys unchanged. -/
theorem alGet_alRemove_ne [DecidableEq α] (l : List (α × β)) (k k' : α) (h : k' ≠ k) :
    alGet (alRemove l k) k' = alGet l k' := by
  induction l with
  | nil => rfl
  | cons a t ih =>
    unfold alGet alRemove at ih ⊢
    by_cases ha : a.1 = k
    · have ha' : ¬a.1 = k' := fun hh => h (hh ▸ ha)
      rw [List.filter_cons_of_neg (by simp [ha]), List.find?_cons_of_neg _ (by simp [ha'])]
      exact ih
    · rw [List.filter_cons_of_pos (by simp [ha])]
      by_cases hk : a.1 = k'
      · rw [List.find?_cons_of_pos _ (by simp [hk]), List.find?_cons_of_pos _ (by simp [hk])]
      · rw [List.find?_cons_of_neg _ (by simp [hk]), List.find?_cons_of_neg _ (by simp [hk])]
        exact ih

/-- Setting one key leaves lookups of other keys unchanged. -/
theorem alGet_alSet_ne [DecidableEq α] (l : List (α × β)) (k k' : α) (v : β) (h : k' ≠ k) :
    alGet (alSet l k v) k' = alGet l k' := by
  unfold alGet alSet
  rw [List.find?_cons_of_neg _ (by simp [Ne.symm h])]
  exact alGet_alRemove_ne l k k' h

/-- Evaluating a run of plain integers reverses them onto the
accumulator. -/
theorem evalRun_nums (l : List Int) (acc : List Int) :
    evalRun acc none (l.map Entry.num) = l.reverse ++ acc := by
  induction l generalizing acc with
  | nil => rfl
  | cons a t ih => simp [evalRun, ih]

/-- The remainder left by the barrier-splitting dropWhile starts with a
barrier (or is empty). -/
theorem headBarrier_dropWhile (s : List Entry) :
    headBarrier (s.dropWhile (fun e => !e.isBarrier)) = true := by
  induction s with
  | nil => rfl
  | cons e t ih =>
    by_cases hb : e.isBarrier
    · simp [List.dropWhile_cons, hb, headBarrier]
    · simp [List.dropWhile_cons, hb, ih]

/-- The isBarrier test of an integer entry. -/
theorem isBarrier_num (n : Int) : (Entry.num n).isBarrier = false :=
  rfl

/-- takeWhile of integers followed by a barrier-headed remainder keeps
exactly the integers. -/
theorem takeWhile_nums_append (l : List Int) (rest : List Entry) (h : headBarrier rest = true) :
    (l.map Entry.num ++ rest).takeWhile (fun e => !e.isBarrier) = l.map Entry.num := by
  induction l with
  | nil =>
    cases rest with
    | nil => rfl
    | cons e t =>
      have he : e.isBarrier = true := h
      simp [List.takeWhile_cons, he]
  | cons a t ih =>
    simp [List.takeWhile_cons, isBarrier_num, ih]

/-- dropWhile of integers followed by a barrier-headed remainder drops
exactly the integers. -/
theorem dropWhile_nums_append (l : List Int) (rest : List Entry) (h : headBarrier rest = true) :
    (l.map Entry.num ++ rest).dropWhile (fun e => !e.isBarrier) = rest := by
  induction l with
  | nil =>
    cases rest with
    | nil => rfl
    | cons e t =>
      have he : e.isBarrier = true := h
      simp [List.dropWhile_cons, he]
  | cons a t ih =>
    simp [List.dropWhile_cons, isBarrier_num, ih]

/-- Stack evaluation is idempotent. -/
theorem evalStack_idem (s : List Entry) : evalStack (evalStack s) = evalStack s := by
  have hhead := headBarrier_dropWhile s
  unfold evalStack
  rw [takeWhile_nums_append _ _ hhead, dropWhile_nums_append _ _ hhead, ← List.map_reverse,
    evalRun_nums]
  simp

/-- Evaluator-level idempotence of eval. -/
theorem Expressions.eval_eval (e : Expressions) : e.eval.eval = e.eval := by
  simp [Expressions.eval, evalStack_idem]

/-! ## Claim theorems -/

/-- Unfolding of one executor step in the middle of a frame: the
character at the program counter is dispatched on the machine with the
counter already advanced. -/
theorem step_char (m : Machine) (f : Frame) (rest : List Frame)
    (hframes : m.frames = f :: rest) (hpc : f.pc < f.text.length) :
    m.step = dispatch { m with frames := { f with pc := f.pc + 1 } :: rest }
      (f.text.getD f.pc (Char.ofNat 0)) := by
  rw [Machine.step.eq_def, hframes]
  simp [hpc]

/-- Unfolding of one executor step at the end of a frame. -/
theorem step_end (m : Machine) (f : Frame) (rest : List Frame)
    (hframes : m.frames = f :: rest) (hpc : ¬f.pc < f.text.length) :
    m.step = endOfMacro m f rest := by
  rw [Machine.step.eq_def, hframes]
  simp [hpc]

/-- C6: executing the conditional loop break when the loop stack holds
no frame above the current macro invocation's frame pointer - outside
any loop, or inside a loop whose frame predates the current macro -
raises an error; the step yields an error and no successor machine, so
no loop frame is popped. -/
theorem c6_break_outside_loop (m : Machine) (f : Frame) (rest : List Frame)
    (hmode : m.mode = .normal) (hcur : m.cur = .start)
    (hframes : m.frames = f :: rest) (hpc : f.pc < f.text.length)
    (hch : f.text.getD f.pc (Char.ofNat 0) = ';') (hfp : m.loops.length ≤ m.fp) :
    m.step = .err .breakOutsideLoop ∧ ∀ m', m.step ≠ .cont m' := by
  have hcc : charCmd ';' = Cmd.breakCmd := by decide
  have hstep : m.step = .err .breakOutsideLoop := by
    rw [step_char m f rest hframes hpc, hch]
    simp [dispatch, hcur, dispatchStart, hcc, hmode, hfp]
  refine ⟨hstep, fun m' hc => ?_⟩
  rw [hstep] at hc
  exact StepRes.noConfusion hc

/-- Witness: the conditional break as the first command of a top-level
macro raises the error. -/
theorem c6_break_outside_loop_witness :
    c6Machine.step = .err .breakOutsideLoop ∧ ∀ m', c6Machine.step ≠ .cont m' :=
  c6_break_outside_loop c6Machine
    { text := ";".data, pc := 0, savedState := .start, savedFp := 0, savedBraceLevel := 0 } []
    rfl rfl rfl (by decide) (by decide) (by decide)

/-- C7: for any register and any string, get_string after set_string
returns the string just set. -/
theorem c7_set_get_string (st : EdState) (r : QRegData) (v : String) :
    (getString (setString st r v).1 (setString st r v).2).1 = v := by
  cases hd : r.doc <;>
    cases hr : st.ringCur <;>
      cases hq : st.qregCur <;>
        simp [setString, getString, qregEdit, getDocument, currentEdit, currentSaveDot,
              Widget.setText, Widget.getText, hd, hr, hq, alGet_alSet]

/-- C8: popping the register save/restore stack when it is empty
returns false and leaves the register's integer value, string payload
and dot unchanged (the whole register and the journal are returned
untouched), and the pop-register command then raises the
stack-is-empty error with the register untouched. -/
theorem c8_pop_empty_stack (r : QRegData) (j : List QsTok) :
    qstackPop [] r j = (false, [], r, j) ∧ statePopQReg true [] r j = .error () :=
  ⟨rfl, rfl⟩

/-- C2 counterexample: executing 0 3<1+:> from an empty stack leaves
the NEW-separated integers 1, 1, 1, not 1, 2, 3 as the claim states:
the digits 0 and 3 merge into the single loop counter 3 (each digit
command multiplies the stack top by the radix and adds itself), and
each iteration's 1+ evaluates to 1 inside its own argument group. -/
theorem c2_colon_loop_end_counterexample :
    (run 60 c2Machine).finalStack.map stackValues = some [1, 1, 1] ∧
    (run 60 c2Machine).finalStack.map stackValues ≠ some [1, 2, 3] := by
  refine ⟨by decide, by decide⟩

/-- C10: with a positive buffer id argument, the EB command switches
buffers already in its initial handler, before the string argument is
consumed; afterwards a non-empty string argument raises an error while
an empty one completes the command with the switch in place. -/
theorem c10_eb_id_string (st : EBState) (id : Int)
    (hstack : st.expr.stack = [Entry.num id]) (hid : 0 < id)
    (hcount : id ≤ st.buffers.length) :
    ∃ st1, ebInitial st = .ok (st1, false) ∧
      st1.current = some (id - 1).toNat ∧ st1.qregCurrent = false ∧
      st1.buffers = st.buffers ∧
      ebDone true st1 false "" = .ok st1 ∧
      ∀ s : String, s ≠ "" → ebDone true st1 false s = .error .stringAfterId := by
  have heval : evalStack [Entry.num id] = [Entry.num id] := by
    simp [evalStack, List.takeWhile_cons, List.dropWhile_cons, isBarrier_num, evalRun]
  have hpop : st.expr.popNumCalcOld 1 (-1) = (id, { st.expr with stack := [], numSign := 1 }) := by
    simp [Expressions.popNumCalcOld, Expressions.eval, hstack, heval]
  refine ⟨{ st with expr := { st.expr with stack := [], numSign := 1 }, current := some (id - 1).toNat, qregCurrent := false }, ?_, rfl, rfl, rfl, rfl, ?_⟩
  · simp [ebInitial, hpop, ringEditId, hid, hcount, show ¬id = 0 by omega,
      show (1 : Int) ≤ id by omega]
  · intro s hs
    simp [ebDone, hs]

/-- Witness: 2EB with two buffers in the ring switches to the second
buffer during initial, rejects a non-empty string argument and accepts
an empty one. -/
theorem c10_eb_id_string_witness :
    ∃ st1, ebInitial ebStEx = .ok (st1, false) ∧
      st1.current = some ((2 : Int) - 1).toNat ∧ st1.qregCurrent = false ∧
      st1.buffers = ebStEx.buffers ∧
      ebDone true st1 false "" = .ok st1 ∧
      ∀ s : String, s ≠ "" → ebDone true st1 false s = .error .stringAfterId :=
  c10_eb_id_string ebStEx 2 rfl (by decide) (by decide)

/-- Every test kind other than the tilde evaluates to a result. -/
theorem condTest_valid (u : Char) (h : u ∈ condOtherKinds) (v : Int) (e : Expressions) :
    ∃ b, condTest u v e = some b := by
  fin_cases h <;> exact ⟨_, rfl⟩

/-- A positive argument count exposes an integer on top of the stack. -/
theorem args_pos_stack (e : Expressions) (h : 0 < e.args) :
    ∃ v tl, e.stack = Entry.num v :: tl := by
  cases hq : e.stack with
  | nil => rw [Expressions.args, hq] at h; simp [argsOf] at h
  | cons a tl =>
    cases a with
    | num v => exact ⟨v, tl, rfl⟩
    | op o => rw [Expressions.args, hq] at h; simp [argsOf] at h

/-- C9: a conditional opened with the tilde test kind pops no value and
its test succeeds exactly when no arguments remain above the topmost
barrier, whereas every other test kind pops exactly one value and
raises an argument-expected error when no argument is available. -/
theorem c9_cond_arguments (e : Expressions) (n : Nat) (ch : Char) :
    (stateCondCommand .normal n e '~' =
        .ok ((if e.eval.args = 0 then CMode.normal else CMode.parseOnlyCond), n, e.eval)) ∧
    (toUpperChar ch ∈ condOtherKinds →
      (e.eval.args = 0 → stateCondCommand .normal n e ch = .error .argExpected) ∧
      (0 < e.eval.args →
        ∃ mode1 e1, stateCondCommand .normal n e ch = .ok (mode1, n, e1) ∧
          e1.args + 1 = e.eval.args)) := by
  constructor
  · have ht : toUpperChar '~' = '~' := by decide
    by_cases hz : e.eval.args = 0 <;> simp [stateCondCommand, condTest, hz, ht]
  · intro hmem
    have hne : ¬ch = '~' := by
      intro hh
      rw [hh] at hmem
      exact absurd hmem (by decide)
    constructor
    · intro hz
      simp [stateCondCommand, hne, hz]
    · intro hpos
      obtain ⟨v, tl, hstk⟩ := args_pos_stack e.eval hpos
      have hpop : e.eval.popNumCalc e.eval.numSign =
          (v, { e.eval with stack := tl, numSign := 1 }) := by
        rw [Expressions.popNumCalc, Expressions.eval_eval]
        simp [hstk]
      obtain ⟨b, hb⟩ := condTest_valid (toUpperChar ch) hmem v { e.eval with stack := tl, numSign := 1 }
      refine ⟨(if b then CMode.normal else CMode.parseOnlyCond),
        { e.eval with stack := tl, numSign := 1 }, ?_, ?_⟩
      · cases b <;>
          simp [stateCondCommand, hne, show ¬e.eval.args = 0 by omega, hpop, hb]
      · rw [Expressions.args, Expressions.args, hstk]
        simp [argsOf]

/-- Witness: a greater-than conditional on a one-argument stack pops
exactly that argument. -/
theorem c9_cond_arguments_witness :
    ∃ mode1 e1, stateCondCommand .normal 0 condExprEx 'G' = .ok (mode1, 0, e1) ∧
      e1.args + 1 = condExprEx.eval.args :=
  ((c9_cond_arguments condExprEx 0 'G').2 (by decide)).2 (by decide)

/-- C3 counterexample: the colon-modified C command pushes the value 0
(not a negative value) when the movement cannot be performed - the very
case in which the unmodified command raises an error - and pushes the
negative value -1 when the movement succeeds; a negative integer hence
denotes success, not failure as the claim states. -/
theorem c3_colon_movement_counterexample :
    pushedValue (execMove .C moveStFail) = some tecoFailure ∧
    ¬tecoFailure < 0 ∧
    isMoveErr (execMove .C { moveStFail with colon := false }) = true ∧
    pushedValue (execMove .C moveStOk) = some tecoSuccess ∧
    tecoSuccess < 0 ∧
    isMoveErr (execMove .C { moveStOk with colon := false }) = false := by
  refine ⟨by decide, by decide, by decide, by decide, by decide, by decide⟩

/-- C3 (amended): a colon-modified movement command never raises an
error; it pushes the SUCCESS/FAILURE condition boolean, pushing the
FAILURE value 0 - non-negative, failure being denoted by non-negative
values per IS_FAILURE - exactly when the unmodified command would raise
a movement error, and pushing the negative SUCCESS value -1 exactly
when the movement succeeds. -/
theorem c3_colon_movement_amended (cmd : MoveCmd) (st : MoveSt) (hcolon : st.colon = true) :
    ∃ st2 rc tl, execMove cmd st = .ok st2 ∧ st2.expr.stack = Entry.num rc :: tl ∧
      ((rc = tecoFailure ∧ isFailureB rc = true ∧
          ∃ er, execMove cmd { st with colon := false } = .error er) ∨
       (rc = tecoSuccess ∧ isFailureB rc = false ∧
          ∃ st3, execMove cmd { st with colon := false } = .ok st3)) := by
  cases cmd with
  | J =>
    by_cases hv : validPos st.env (st.expr.popNumCalc 0).1 = true
    · exact ⟨_, _, _, by simp [execMove, MoveSt.evalColon, hcolon, hv, Expressions.push]; rfl,
        by simp [execMove, MoveSt.evalColon, hcolon, hv, Expressions.push, tecoSuccess]; rfl,
        Or.inr ⟨rfl, by decide, _,
          by simp [execMove, MoveSt.evalColon, hcolon, hv, Expressions.push]; rfl⟩⟩
    · exact ⟨_, _, _, by simp [execMove, MoveSt.evalColon, hcolon, hv, Expressions.push]; rfl,
        by simp [execMove, MoveSt.evalColon, hcolon, hv, Expressions.push, tecoFailure]; rfl,
        Or.inl ⟨rfl, by decide, _,
          by simp [execMove, MoveSt.evalColon, hcolon, hv, Expressions.push]; rfl⟩⟩
  | C =>
    by_cases hv : validPos st.env (st.dot + st.expr.popNumCalcD.1) = true
    · exact ⟨_, _, _,
        by simp [execMove, moveChars, MoveSt.evalColon, hcolon, hv, Expressions.push]; rfl,
        by simp [execMove, moveChars, MoveSt.evalColon, hcolon, hv, Expressions.push,
          tecoSuccess]; rfl,
        Or.inr ⟨rfl, by decide, _,
          by simp [execMove, moveChars, MoveSt.evalColon, hcolon, hv, Expressions.push,
            isFailureB, tecoSuccess]; rfl⟩⟩
    · exact ⟨_, _, _,
        by simp [execMove, moveChars, MoveSt.evalColon, hcolon, hv, Expressions.push]; rfl,
        by simp [execMove, moveChars, MoveSt.evalColon, hcolon, hv, Expressions.push,
          tecoFailure]; rfl,
        Or.inl ⟨rfl, by decide, _,
          by simp [execMove, moveChars, MoveSt.evalColon, hcolon, hv, Expressions.push,
            isFailureB, tecoFailure]; rfl⟩⟩
  | R =>
    by_cases hv : validPos st.env (st.dot + -st.expr.popNumCalcD.1) = true
    · exact ⟨_, _, _,
        by simp [execMove, moveChars, MoveSt.evalColon, hcolon, hv, Expressions.push]; rfl,
        by simp [execMove, moveChars, MoveSt.evalColon, hcolon, hv, Expressions.push,
          tecoSuccess]; rfl,
        Or.inr ⟨rfl, by decide, _,
          by simp [execMove, moveChars, MoveSt.evalColon, hcolon, hv, Expressions.push,
            isFailureB, tecoSuccess]; rfl⟩⟩
    · exact ⟨_, _, _,
        by simp [execMove, moveChars, MoveSt.evalColon, hcolon, hv, Expressions.push]; rfl,
        by simp [execMove, moveChars, MoveSt.evalColon, hcolon, hv, Expressions.push,
          tecoFailure]; rfl,
        Or.inl ⟨rfl, by decide, _,
          by simp [execMove, moveChars, MoveSt.evalColon, hcolon, hv, Expressions.push,
            isFailureB, tecoFailure]; rfl⟩⟩
  | L =>
    by_cases hv : validLine st.env (st.env.lineOfPos st.dot + st.expr.popNumCalcD.1) = true
    · exact ⟨_, _, _,
        by simp [execMove, moveLines, MoveSt.evalColon, hcolon, hv, Expressions.push]; rfl,
        by simp [execMove, moveLines, MoveSt.evalColon, hcolon, hv, Expressions.push,
          tecoSuccess]; rfl,
        Or.inr ⟨rfl, by decide, _,
          by simp [execMove, moveLines, MoveSt.evalColon, hcolon, hv, Expressions.push,
            isFailureB, tecoSuccess]; rfl⟩⟩
    · exact ⟨_, _, _,
        by simp [execMove, moveLines, MoveSt.evalColon, hcolon, hv, Expressions.push]; rfl,
        by simp [execMove, moveLines, MoveSt.evalColon, hcolon, hv, Expressions.push,
          tecoFailure]; rfl,
        Or.inl ⟨rfl, by decide, _,
          by simp [execMove, moveLines, MoveSt.evalColon, hcolon, hv, Expressions.push,
            isFailureB, tecoFailure]; rfl⟩⟩
  | B =>
    by_cases hv : validLine st.env (st.env.lineOfPos st.dot + -st.expr.popNumCalcD.1) = true
    · exact ⟨_, _, _,
        by simp [execMove, moveLines, MoveSt.evalColon, hcolon, hv, Expressions.push]; rfl,
        by simp [execMove, moveLines, MoveSt.evalColon, hcolon, hv, Expressions.push,
          tecoSuccess]; rfl,
        Or.inr ⟨rfl, by decide, _,
          by simp [execMove, moveLines, MoveSt.evalColon, hcolon, hv, Expressions.push,
            isFailureB, tecoSuccess]; rfl⟩⟩
    · exact ⟨_, _, _,
        by simp [execMove, moveLines, MoveSt.evalColon, hcolon, hv, Expressions.push]; rfl,
        by simp [execMove, moveLines, MoveSt.evalColon, hcolon, hv, Expressions.push,
          tecoFailure]; rfl,
        Or.inl ⟨rfl, by decide, _,
          by simp [execMove, moveLines, MoveSt.evalColon, hcolon, hv, Expressions.push,
            isFailureB, tecoFailure]; rfl⟩⟩
  | W =>
    by_cases hl : (if st.expr.popNumCalcD.1 < 0 then
        wordLoop st.env.wordLeft (-st.expr.popNumCalcD.1).toNat st.dot
      else wordLoop st.env.wordRight st.expr.popNumCalcD.1.toNat st.dot).2 = true
    · exact ⟨_, _, _, by simp [execMove, MoveSt.evalColon, hcolon, hl, Expressions.push]; rfl,
        by simp [execMove, MoveSt.evalColon, hcolon, hl, Expressions.push, tecoSuccess]; rfl,
        Or.inr ⟨rfl, by decide, _,
          by simp [execMove, MoveSt.evalColon, hcolon, hl, Expressions.push]; rfl⟩⟩
    · exact ⟨_, _, _, by simp [execMove, MoveSt.evalColon, hcolon, hl, Expressions.push]; rfl,
        by simp [execMove, MoveSt.evalColon, hcolon, hl, Expressions.push, tecoFailure]; rfl,
        Or.inl ⟨rfl, by decide, _,
          by simp [execMove, MoveSt.evalColon, hcolon, hl, Expressions.push]; rfl⟩⟩

/-- Witness: the failing colon-modified C command at the concrete
five-character document. -/
theorem c3_colon_movement_amended_witness :
    ∃ st2 rc tl, execMove .C moveStFail = .ok st2 ∧ st2.expr.stack = Entry.num rc :: tl ∧
      ((rc = tecoFailure ∧ isFailureB rc = true ∧
          ∃ er, execMove .C { moveStFail with colon := false } = .error er) ∨
       (rc = tecoSuccess ∧ isFailureB rc = false ∧
          ∃ st3, execMove .C { moveStFail with colon := false } = .ok st3)) :=
  c3_colon_movement_amended .C moveStFail rfl

/-- C4: per input character, the state the transition loop returns
becomes the current state (a self-mapping state is returned at once);
the prior state is journaled exactly when the resulting state differs
from the state before the character; when the transition table has no
entry for the upper-cased byte the custom handler decides the result,
and a null custom result raises a syntax error. -/
theorem c4_parser_transition {σ : Type} [DecidableEq σ] (t : PTable σ) (cur : σ)
    (j : List σ) (chr : Int) (fuel : Nat) :
    (∀ s2 j2, pInput t cur j chr fuel = .ok (some (s2, j2)) →
      (s2 = cur → j2 = j) ∧ (s2 ≠ cur → j2 = cur :: j)) ∧
    (∀ s : σ,
      (if 0 ≤ toupperI chr ∧ toupperI chr < 256 then t.transitions s (toupperI chr).toNat
       else none) = none →
      (∀ nxt, t.custom s chr = .ok (some nxt) → pNext t s chr = .ok nxt) ∧
      (t.custom s chr = .ok none → pNext t s chr = .error (.syntaxErr chr))) ∧
    (∀ s1, pNext t cur chr = .ok s1 → s1 = cur →
      pInput t cur j chr (fuel + 1) = .ok (some (cur, j))) := by
  refine ⟨?_, ?_, ?_⟩
  · intro s2 j2 h
    unfold pInput at h
    cases hpl : pLoop t fuel cur chr with
    | error e => rw [hpl] at h; exact absurd h (by simp)
    | ok o =>
      rw [hpl] at h
      cases o with
      | none => exact absurd h (by simp)
      | some s =>
        simp only [Except.ok.injEq, Option.some.injEq, Prod.mk.injEq] at h
        obtain ⟨hs, hj⟩ := h
        subst hs
        constructor
        · intro he; rw [← hj, if_pos he]
        · intro he; rw [← hj, if_neg he]
  · intro s hnone
    constructor
    · intro nxt hc
      simp [pNext, hnone, hc]
    · intro hc
      simp [pNext, hnone, hc]
  · intro s1 h1 he
    subst he
    simp [pInput, pLoop, h1]

/-- Witness: the NUL self-transition of the concrete table returns the
same state with nothing journaled, and an unmapped byte with a null
custom result is a syntax error. -/
theorem c4_parser_transition_witness :
    pInput pTableEx PS.s0 [] 0 4 = .ok (some (PS.s0, [])) ∧
    pNext pTableEx PS.s0 300 = .error (.syntaxErr 300) :=
  ⟨(c4_parser_transition pTableEx PS.s0 [] 0 3).2.2 PS.s0 rfl rfl,
   ((c4_parser_transition pTableEx PS.s0 [] 300 3).2.1 PS.s0 (by decide)).2 rfl⟩

/-- C1 counterexample: a successful save of an unnamed buffer to a path
that does exist on disk pushes a remove-file token, not a
savepoint-restore token, and the old contents of the target are gone
from the filesystem entirely (no savepoint sibling holds them), contrary
to the claim that an existing target file is renamed to a savepoint with
a restore token journaled. -/
theorem c1_save_target_counterexample :
    saveStC.undoEnabled = true ∧
    (alGet saveStC.fs "t").isSome = true ∧
    ringSave saveStC (some "t") = some saveStCRes ∧
    saveStCRes.journal.all (fun tok => !tok.isRestore) = true ∧
    saveStCRes.fs.all (fun q => !(q.2 = "old")) = true := by
  refine ⟨rfl, rfl, by decide, by decide, by decide⟩

/-- C1 (amended): for every successful save with undo enabled: if the
buffer's recorded filename named a file existing on disk, that file was
renamed to the hidden savepoint sibling and a restore-savepoint token
was journaled; if the buffer had no recorded filename, or its recorded
file was not on disk, a remove-file token for the target was journaled
instead; afterwards the buffer's dirty flag is false and the (canonical)
target filename is recorded, and the target holds the buffer contents. -/
theorem c1_save_amended (s : SaveState) (arg : Option String) (buf : SaveBuffer)
    (target : String) (s2 : SaveState)
    (hundo : s.undoEnabled = true) (hcur : s.current = some buf)
    (harg : arg = some target ∨ (arg = none ∧ buf.filename = some target))
    (hsave : ringSave s arg = some s2) :
    (∀ cf, buf.filename = some cf → (alGet s.fs cf).isSome = true →
      SaveTok.restoreSavePoint (savepointName cf buf.savepointId) ∈ s2.journal ∧
      (savepointName cf buf.savepointId ≠ target →
        alGet s2.fs (savepointName cf buf.savepointId) = alGet s.fs cf)) ∧
    ((buf.filename = none ∨ ∃ cf, buf.filename = some cf ∧ (alGet s.fs cf).isSome = false) →
      SaveTok.removeFile target ∈ s2.journal) ∧
    (∃ buf2, s2.current = some buf2 ∧ buf2.dirty = false ∧
      buf2.filename = some (setFilenameModel target)) ∧
    alGet s2.fs target = some s.content := by
  rcases harg with rfl | ⟨rfl, hbft⟩
  · -- explicit target filename argument
    cases hbf : buf.filename with
    | none =>
      simp only [ringSave, hcur, hundo, hbf, if_true, Option.some.injEq] at hsave
      subst hsave
      refine ⟨?_, fun _ => by simp, ⟨_, rfl, rfl, rfl⟩, alGet_alSet _ _ _⟩
      intro cf2 hcf2
      exact absurd hcf2 (by simp)
    | some cf =>
      by_cases hex : (alGet s.fs cf).isSome = true
      · obtain ⟨c, hc⟩ : ∃ c, alGet s.fs cf = some c := by
          cases hg : alGet s.fs cf with
          | none => rw [hg] at hex; exact absurd hex (by simp)
          | some c => exact ⟨c, rfl⟩
        simp only [ringSave, hcur, hundo, hbf, makeSavepoint, fsRename, hc,
          Option.isSome_some, if_true, Option.some.injEq] at hsave
        subst hsave
        refine ⟨?_, ?_, ⟨_, rfl, rfl, rfl⟩, alGet_alSet _ _ _⟩
        · intro cf2 hcf2 _
          simp only [Option.some.injEq] at hcf2
          subst hcf2
          refine ⟨by simp, fun hne => ?_⟩
          rw [alGet_alSet_ne _ _ _ _ hne, alGet_alSet, hc]
        · intro hcontra
          rcases hcontra with h | ⟨cf2, hcf2, hno⟩
          · exact absurd h (by simp)
          · simp only [Option.some.injEq] at hcf2
            subst hcf2
            rw [hc] at hno
            exact absurd hno (by simp)
      · have hcn : alGet s.fs cf = none := by
          cases hg : alGet s.fs cf with
          | none => rfl
          | some c => rw [hg] at hex; exact absurd (by simp) hex
        simp only [ringSave, hcur, hundo, hbf, hcn, Option.isSome_none, Bool.false_eq_true,
          if_false, Option.some.injEq] at hsave
        subst hsave
        refine ⟨?_, fun _ => by simp, ⟨_, rfl, rfl, rfl⟩, alGet_alSet _ _ _⟩
        intro cf2 hcf2 hsome
        simp only [Option.some.injEq] at hcf2
        subst hcf2
        rw [hcn] at hsome
        exact absurd hsome (by simp)
  · -- no filename argument: the buffer's recorded filename is the target
    by_cases hex : (alGet s.fs target).isSome = true
    · obtain ⟨c, hc⟩ : ∃ c, alGet s.fs target = some c := by
        cases hg : alGet s.fs target with
        | none => rw [hg] at hex; exact absurd hex (by simp)
        | some c => exact ⟨c, rfl⟩
      simp only [ringSave, hcur, hundo, hbft, makeSavepoint, fsRename, hc,
        Option.isSome_some, if_true, Option.some.injEq] at hsave
      subst hsave
      refine ⟨?_, ?_, ⟨_, rfl, rfl, rfl⟩, alGet_alSet _ _ _⟩
      · intro cf2 hcf2 _
        rw [hbft] at hcf2
        simp only [Option.some.injEq] at hcf2
        subst hcf2
        refine ⟨by simp, fun hne => ?_⟩
        rw [alGet_alSet_ne _ _ _ _ hne, alGet_alSet, hc]
      · intro hcontra
        rcases hcontra with h | ⟨cf2, hcf2, hno⟩
        · rw [hbft] at h; exact absurd h (by simp)
        · rw [hbft] at hcf2
          simp only [Option.some.injEq] at hcf2
          subst hcf2
          rw [hc] at hno
          exact absurd hno (by simp)
    · have hcn : alGet s.fs target = none := by
        cases hg : alGet s.fs target with
        | none => rfl
        | some c => rw [hg] at hex; exact absurd (by simp) hex
      simp only [ringSave, hcur, hundo, hbft, hcn, Option.isSome_none, Bool.false_eq_true,
        if_false, Option.some.injEq] at hsave
      subst hsave
      refine ⟨?_, fun _ => by simp, ⟨_, rfl, rfl, rfl⟩, alGet_alSet _ _ _⟩
      intro cf2 hcf2 hsome
      rw [hbft] at hcf2
      simp only [Option.some.injEq] at hcf2
      subst hcf2
      rw [hcn] at hsome
      exact absurd hsome (by simp)

/-- Witness: saving the named buffer f over its existing file leaves
the savepoint sibling holding the old contents, journals the restore
token and writes the new contents to f. -/
theorem c1_save_amended_witness :
    SaveTok.restoreSavePoint ".teco-f-0" ∈ saveStWRes.journal ∧
    alGet saveStWRes.fs ".teco-f-0" = alGet saveStW.fs "f" ∧
    alGet saveStWRes.fs "f" = some saveStW.content := by
  obtain ⟨h1, _, _, h4⟩ :=
    c1_save_amended saveStW none { filename := some "f", dirty := true, savepointId := 0 }
      "f" saveStWRes rfl rfl (Or.inr ⟨rfl, rfl⟩) (by decide)
  have h5 := h1 "f" rfl (by decide)
  have hsp : savepointName "f" 0 = ".teco-f-0" := by decide
  refine ⟨?_, ?_, h4⟩
  · rw [← hsp]; exact h5.1
  · rw [← hsp]; exact h5.2 (by decide)

/-- C2 (amended): executing the colon-modified loop end of a
non-pass-through loop in normal mode evaluates pending operators,
inserts a NEW argument barrier above the evaluated stack and keeps the
accumulated values (closing the loop's implicit brace on the final
iteration); executing 0 3<1+:> starting from an empty stack leaves the
three NEW-separated integers 1, 1 and 1 on the stack - the digits 0
and 3 merge into the single loop counter 3, and each iteration's 1+
evaluates to 1 inside its own argument group. -/
theorem c2_colon_loop_end_amended (m : Machine) (ctx : LoopCtx) (ltail : List LoopCtx)
    (hmode : m.mode = .normal) (hcolon : m.colon = true)
    (hloops : m.loops = ctx :: ltail) (hpt : ctx.passThrough = false)
    (hfp : m.fp < m.loops.length) :
    (ctx.counter ≠ 1 →
      dispatchStart m '>' = .cont { m with
        colon := false,
        expr := m.expr.eval.pushOp Op.new,
        loops := { ctx with
          counter := if 0 ≤ ctx.counter then ctx.counter - 1 else ctx.counter } :: ltail,
        frames := setTopPc m.frames ctx.pc }) ∧
    (ctx.counter = 1 →
      dispatchStart m '>' =
        (match (m.expr.eval.pushOp Op.new).braceClose with
         | some e2 => .cont { m with colon := false, expr := e2, loops := ltail }
         | none => .err .missingBrace)) ∧
    (run 60 c2Machine).finalStack.map stackValues = some [1, 1, 1] := by
  have hcc : charCmd '>' = Cmd.loopEnd := by decide
  have hnp : ¬m.mode = .parseOnlyLoop := by rw [hmode]; simp
  have hfp2 : m.fp < ltail.length + 1 := by
    rw [hloops] at hfp; simpa using hfp
  have hng : ¬m.loops.length ≤ m.fp := by omega
  have hng2 : ¬ltail.length + 1 ≤ m.fp := by omega
  refine ⟨?_, ?_, by decide⟩
  · intro hne
    simp [dispatchStart, hcc, hnp, hng, hng2, hloops, Machine.evalColon, hcolon, hpt, hne]
  · intro h1
    cases hb : (m.expr.eval.pushOp Op.new).braceClose with
    | none =>
      simp [dispatchStart, hcc, hnp, hng, hng2, hloops, Machine.evalColon, hcolon, hpt, h1, hb]
    | some e2 =>
      simp [dispatchStart, hcc, hnp, hng, hng2, hloops, Machine.evalColon, hcolon, hpt, h1, hb]

/-- Witness: the first colon-modified loop end of the aggregation
scenario, dispatched on the concrete mid-iteration machine. -/
theorem c2_colon_loop_end_amended_witness :
    (c2MidCtx.counter ≠ 1 →
      dispatchStart c2Mid '>' = .cont { c2Mid with
        colon := false,
        expr := c2Mid.expr.eval.pushOp Op.new,
        loops := { c2MidCtx with
          counter := if 0 ≤ c2MidCtx.counter then c2MidCtx.counter - 1
                     else c2MidCtx.counter } :: [],
        frames := setTopPc c2Mid.frames c2MidCtx.pc }) ∧
    (c2MidCtx.counter = 1 →
      dispatchStart c2Mid '>' =
        (match (c2Mid.expr.eval.pushOp Op.new).braceClose with
         | some e2 => .cont { c2Mid with colon := false, expr := e2, loops := [] }
         | none => .err .missingBrace)) ∧
    (run 60 c2Machine).finalStack.map stackValues = some [1, 1, 1] :=
  c2_colon_loop_end_amended c2Mid c2MidCtx [] rfl rfl rfl rfl (by decide)

/-- The frame-pointer chain ignores program counters. -/
theorem fpChainB_pc (n : Nat) (f : Frame) (p : Nat) (rest : List Frame) :
    fpChainB n ({ f with pc := p } :: rest) = fpChainB n (f :: rest) := by
  simp [fpChainB]

/-- Updating the top frame's program counter keeps the stack depth. -/
theorem setTopPc_length (l : List Frame) (p : Nat) : (setTopPc l p).length = l.length := by
  cases l <;> simp [setTopPc]

/-- Updating the top frame's program counter keeps the chain. -/
theorem fpChainB_setTopPc (n : Nat) (l : List Frame) (p : Nat) :
    fpChainB n (setTopPc l p) = fpChainB n l := by
  cases l <;> simp [setTopPc, fpChainB]

/-- Length of a stack truncated to its bottommost n elements. -/
theorem truncTo_length {α : Type} (n : Nat) (l : List α) (h : n ≤ l.length) :
    (truncTo n l).length = n := by
  simp [truncTo]
  omega

/-- The chain on a frame cons unfolds to its two conditions. -/
theorem fpChainB_cons_iff (n : Nat) (f : Frame) (rest : List Frame) :
    fpChainB n (f :: rest) = true ↔ (f.savedFp ≤ n ∧ fpChainB f.savedFp rest = true) := by
  simp [fpChainB]

/-- eval_colon leaves the frame stack unchanged. -/
theorem evalColon_frames (m : Machine) : m.evalColon.2.frames = m.frames := by
  unfold Machine.evalColon
  split <;> rfl

/-- eval_colon leaves the loop stack unchanged. -/
theorem evalColon_loops (m : Machine) : m.evalColon.2.loops = m.loops := by
  unfold Machine.evalColon
  split <;> rfl

/-- eval_colon leaves the frame pointer unchanged. -/
theorem evalColon_fp (m : Machine) : m.evalColon.2.fp = m.fp := by
  unfold Machine.evalColon
  split <;> rfl

/-- eval_colon leaves the expression state unchanged. -/
theorem evalColon_expr (m : Machine) : m.evalColon.2.expr = m.expr := by
  unfold Machine.evalColon
  split <;> rfl

/-- StateStart actions preserve the loop-stack invariant and touch
neither the frame-stack depth nor the frame pointer. -/
theorem dispatchStart_inv (m m2 : Machine) (ch : Char)
    (hlen : m.fp ≤ m.loops.length) (hchain : fpChainB m.fp m.frames = true)
    (h : dispatchStart m ch = .cont m2) :
    (m2.fp ≤ m2.loops.length ∧ fpChainB m2.fp m2.frames = true) ∧
    m2.frames.length = m.frames.length ∧ m2.fp = m.fp := by
  cases hc : charCmd ch <;> simp only [dispatchStart, hc] at h <;>
    repeat' split at h
  all_goals try exact StepRes.noConfusion h
  all_goals simp only [StepRes.cont.injEq] at h
  all_goals subst h
  all_goals
    refine ⟨⟨?_, ?_⟩, ?_, ?_⟩ <;>
      simp_all [evalColon_loops, evalColon_fp, evalColon_frames,
        setTopPc_length, fpChainB_setTopPc] <;>
      omega

/-- Dispatch in the start state runs the start-state action. -/
theorem dispatch_start (m : Machine) (ch : Char) (h : m.cur = .start) :
    dispatch m ch = dispatchStart m ch := by
  simp [dispatch, h]

/-- Dispatch in the escape state runs the escape-state action. -/
theorem dispatch_escape (m : Machine) (ch : Char) (h : m.cur = .escape) :
    dispatch m ch = dispatchEscape m ch := by
  simp [dispatch, h]

/-- Dispatch in the register-expecting state runs its action. -/
theorem dispatch_qreg (m : Machine) (ch : Char) (h : m.cur = .expectQReg) :
    dispatch m ch = dispatchQReg m ch := by
  simp [dispatch, h]

/-- C5: macro invocation saves the caller's frame pointer and sets the
frame pointer to the loop-stack depth; every executor step preserves the
loop-stack invariant, and any step that pops a macro frame leaves the
loop stack at exactly the depth recorded by the executing frame's
pointer, so loops opened inside the macro do not leak to the caller. -/
theorem c5_loop_frame_invariant (m m2 : Machine) (hinv : MachInv m)
    (hstep : m.step = .cont m2) :
    MachInv m2 ∧ (m2.frames.length < m.frames.length → m2.loops.length = m.fp) := by
  obtain ⟨hlen, hchain⟩ := hinv
  cases hf : m.frames with
  | nil =>
    rw [Machine.step.eq_def, hf] at hstep
    exact StepRes.noConfusion hstep
  | cons f rest =>
    have hch2 : fpChainB m.fp (f :: rest) = true := hf ▸ hchain
    obtain ⟨hsf, hcrest⟩ := (fpChainB_cons_iff _ _ _).mp hch2
    have hml : m.frames.length = rest.length + 1 := by rw [hf]; rfl
    by_cases hpc : f.pc < f.text.length
    · rw [step_char m f rest hf hpc] at hstep
      cases hcur : m.cur with
      | start =>
        rw [dispatch_start { m with frames := { f with pc := f.pc + 1 } :: rest } _ hcur] at hstep
        obtain ⟨⟨hl2, hc2⟩, hfl, hfpEq⟩ :=
          dispatchStart_inv _ _ _ (by exact hlen)
            (by simpa [fpChainB_pc] using hch2) hstep
        have hfl2 : m2.frames.length = rest.length + 1 := by simpa using hfl
        exact ⟨⟨hl2, hc2⟩, fun hlt =>
          absurd hlt (by simp only [List.length_cons]; omega)⟩
      | escape =>
        rw [dispatch_escape { m with frames := { f with pc := f.pc + 1 } :: rest } _ hcur] at hstep
        unfold dispatchEscape at hstep
        by_cases hesc : (f.text.getD f.pc (Char.ofNat 0)) = escChar ∨
            (f.text.getD f.pc (Char.ofNat 0)) = '$'
        · rw [if_pos hesc] at hstep
          by_cases hmode : m.mode = .normal
          · rw [if_neg (by simpa using hmode)] at hstep
            simp only [StepRes.cont.injEq] at hstep
            subst hstep
            refine ⟨⟨?_, ?_⟩, fun _ => ?_⟩
            · simpa [truncTo_length m.fp m.loops hlen] using hsf
            · simpa using hcrest
            · simpa using truncTo_length m.fp m.loops hlen
          · rw [if_pos (by simpa using hmode)] at hstep
            simp only [StepRes.cont.injEq] at hstep
            subst hstep
            refine ⟨⟨hlen, ?_⟩, fun hlt => absurd hlt ?_⟩
            · simpa [fpChainB_pc] using hch2
            · simp only [hml]
              simp
        · rw [if_neg hesc] at hstep
          split at hstep <;>
          · obtain ⟨⟨hl2, hc2⟩, hfl, hfpEq⟩ :=
              dispatchStart_inv _ _ _ (by exact hlen)
                (by simpa [fpChainB_pc] using hch2) hstep
            have hfl2 : m2.frames.length = rest.length + 1 := by simpa using hfl
            exact ⟨⟨hl2, hc2⟩, fun hlt =>
              absurd hlt (by simp only [List.length_cons]; omega)⟩
      | expectQReg =>
        rw [dispatch_qreg { m with frames := { f with pc := f.pc + 1 } :: rest } _ hcur] at hstep
        unfold dispatchQReg at hstep
        split at hstep
        · simp only [StepRes.cont.injEq] at hstep
          subst hstep
          refine ⟨⟨hlen, ?_⟩, fun hlt => absurd hlt ?_⟩
          · simpa [fpChainB_pc] using hch2
          · simp only [hml]
            simp
        · simp only [StepRes.cont.injEq] at hstep
          subst hstep
          refine ⟨⟨?_, ?_⟩, fun hlt => absurd hlt ?_⟩
          · simp
          · refine (fpChainB_cons_iff _ _ _).mpr ⟨?_, ?_⟩
            · simpa [evalColon_fp, evalColon_loops] using hlen
            · simpa [evalColon_fp, evalColon_frames, fpChainB_pc] using hch2
          · simp only [hml, List.length_cons, evalColon_frames]
            simp [evalColon_frames]
    · rw [step_end m f rest hf hpc] at hstep
      unfold endOfMacro at hstep
      cases hcur : m.cur with
      | expectQReg =>
        rw [hcur] at hstep
        exact StepRes.noConfusion hstep
      | start =>
        rw [hcur] at hstep
        simp only [reduceCtorEq, if_neg, reduceIte] at hstep
        split at hstep
        · exact StepRes.noConfusion hstep
        · rename_i hge
          simp only [StepRes.cont.injEq] at hstep
          subst hstep
          refine ⟨⟨?_, ?_⟩, fun _ => ?_⟩
          · show f.savedFp ≤ m.loops.length
            omega
          · show fpChainB f.savedFp rest = true
            exact hcrest
          · show m.loops.length = m.fp
            omega
      | escape =>
        rw [hcur] at hstep
        simp only [reduceIte] at hstep
        split at hstep
        · exact StepRes.noConfusion hstep
        · rename_i hge
          simp only [StepRes.cont.injEq] at hstep
          subst hstep
          refine ⟨⟨?_, ?_⟩, fun _ => ?_⟩
          · show f.savedFp ≤ m.loops.length
            omega
          · show fpChainB f.savedFp rest = true
            exact hcrest
          · show m.loops.length = m.fp
            omega

/-- C5 witness: the empty top-level macro's single step pops its frame,
the invariant holds afterwards, and the loop stack is back at the depth
recorded by the popped frame's pointer. -/
theorem c5_loop_frame_invariant_witness :
    MachInv c5Next ∧ (c5Next.frames.length < c5Machine.frames.length →
      c5Next.loops.length = c5Machine.fp) :=
  c5_loop_frame_invariant c5Machine c5Next ⟨by decide, by rfl⟩ (by rfl)

end SciTeco
